import Mathlib

/-!
# minecraft-wrapper: a supervisor relaying commands from a named pipe to a child process

Shallow embedding of `src/main.go`.

* `makeOrOpenFifo` runs over an explicit operating-system state (`OS`): a table of
  filesystem objects and the table of open descriptors.
* `commandReader` runs over a `Script`: the successive results that `read(2)` on the pipe
  hands to the program.  `bufio.Scanner` with its default split function `ScanLines`, which
  `commandReader` instantiates, is embedded as `Scanner` with `Scanner.Scan`.
* the event loop of `main` is a step function over the set of events that are ready when
  `select` runs, and the pick `select` makes among them.

Bytes are natural numbers (`10` is the newline, `13` the carriage return); the theorems
hold for every value, so in particular for the values `0 .. 255` a byte can take.
-/

namespace MinecraftWrapper

/-! ## Bytes, lines -/

/-- A byte of a stream. -/
abbrev Byte := Nat

/-- A command line: the bytes of a Go `string`. -/
abbrev Line := List Byte

/-! ## Errors -/

/-- The `errno` values the model distinguishes. -/
inductive Errno
  /-- errno EEXIST -/
  | exist
  /-- errno ENOTEMPTY -/
  | notEmpty
  /-- errno EACCES -/
  | access
  /-- errno ENOENT -/
  | noEntry
  /-- errno ENXIO -/
  | noDevice
  /-- errno EIO -/
  | ioFailure
  deriving DecidableEq, Repr

/-- A Go `error` value as `makeOrOpenFifo` can return it. -/
inductive GoError
  /-- a bare `syscall.Errno`, as `syscall.Mkfifo` returns it -/
  | errno (e : Errno)
  /-- a `*fs.PathError` wrapping an errno, as `os.OpenFile` and `File.Stat` return it -/
  | pathError (op : String) (e : Errno)
  /-- the sentinel `os.ErrExist` -/
  | ErrExist
  deriving DecidableEq, Repr

/-- The test `os.IsExist(err)`: the error, unwrapped, is `os.ErrExist` or one of the errnos
`EEXIST`, `ENOTEMPTY`. -/
def IsExist : GoError → Bool
  | .ErrExist => true
  | .errno e => e = Errno.exist ∨ e = Errno.notEmpty
  | .pathError _ e => e = Errno.exist ∨ e = Errno.notEmpty

/-! ## Operating-system state -/

/-- The kind of a filesystem object (the type bits of its mode). -/
inductive Kind
  | fifo
  | regular
  | directory
  | socket
  | device
  deriving DecidableEq, Repr

/-- A filesystem object. -/
structure Node where
  kind : Kind
  /-- permission bits -/
  perm : Nat
  /-- content of a regular file -/
  content : List Byte
  /-- the permission check of `open(2)` for reading passes for this process -/
  readable : Bool
  /-- what `fstat(2)` on a descriptor of this object fails with, if it fails -/
  statErr : Option Errno
  deriving DecidableEq, Repr

/-- An open file: `*os.File`. -/
structure File where
  fd : Nat
  name : String
  deriving DecidableEq, Repr

/-- The state of the operating system the program runs in. -/
structure OS where
  /-- the objects of the working directory, by name -/
  files : List (String × Node)
  /-- the process may create entries in the working directory -/
  cwdWritable : Bool
  /-- the file mode creation mask of the process -/
  umask : Nat
  /-- the open descriptors of the process -/
  fds : List File
  /-- the process passes every permission check (it runs as root) -/
  privileged : Bool
  deriving DecidableEq, Repr

/-- The object a name refers to. -/
def OS.lookup (os : OS) (name : String) : Option Node :=
  (os.files.find? (fun p => p.1 = name)).map (fun p => p.2)

def O_RDONLY : Nat := 0
def O_CREAT : Nat := 0x40
def O_TRUNC : Nat := 0x200
def O_NONBLOCK : Nat := 0x800

/-- The lowest descriptor number not in use. -/
def OS.freshFd (os : OS) : Nat :=
  (os.fds.map (fun f => f.fd)).foldl (fun a b => max a (b + 1)) 3

/-- Whether the process, as the owner of an object with these permission bits, may open
it for reading: the owner's read bit is set, or the process is privileged. -/
def OS.ownerMayRead (os : OS) (perm : Nat) : Bool :=
  os.privileged || decide (perm &&& 0o400 ≠ 0)

/-- The call `syscall.Mkfifo(name, mode)`: fails with `EEXIST` when the name is taken
(whatever the object), with `EACCES` when the directory cannot be written, and otherwise
creates a named pipe owned by the process, with the mode less the bits of the umask. -/
def Mkfifo (os : OS) (name : String) (mode : Nat) : OS × Option GoError :=
  match os.lookup name with
  | some _ => (os, some (.errno .exist))
  | none =>
    if os.cwdWritable then
      ({ os with files := os.files ++
          [(name, { kind := .fifo, perm := mode - (mode &&& os.umask), content := [],
                    readable := os.ownerMayRead (mode - (mode &&& os.umask)),
                    statErr := none })] }, none)
    else (os, some (.errno .access))

/-- Replace the object stored under a name. -/
def OS.store (os : OS) (name : String) (n : Node) : OS :=
  { os with files := os.files.map (fun p => if p.1 = name then (p.1, n) else p) }

/-- The call `os.OpenFile(name, flag, perm)`.  With `O_CREAT` a missing name is created as a
regular file, with `O_TRUNC` a regular file is emptied; without them the filesystem is
left as it is.  A socket cannot be opened (`ENXIO`), an object the process may not read
gives `EACCES`. -/
def OpenFile (os : OS) (name : String) (flag : Nat) (perm : Nat) :
    OS × Except GoError File :=
  match os.lookup name with
  | none =>
    if flag &&& O_CREAT ≠ 0 then
      if os.cwdWritable then
        let f : File := { fd := os.freshFd, name := name }
        ({ os with
            files := os.files ++
              [(name, { kind := .regular, perm := perm - (perm &&& os.umask), content := [],
                        readable := os.ownerMayRead (perm - (perm &&& os.umask)),
                        statErr := none })],
            fds := os.fds ++ [f] }, .ok f)
      else (os, .error (.pathError "open" .access))
    else (os, .error (.pathError "open" .noEntry))
  | some n =>
    if n.readable = false then (os, .error (.pathError "open" .access))
    else if n.kind = .socket then (os, .error (.pathError "open" .noDevice))
    else
      let os1 := if flag &&& O_TRUNC ≠ 0 ∧ n.kind = .regular
                 then os.store name { n with content := [] } else os
      let f : File := { fd := os.freshFd, name := name }
      ({ os1 with fds := os1.fds ++ [f] }, .ok f)

/-- The call `pipe.Stat()`: the object behind an open file. -/
def File.Stat (os : OS) (pipe : File) : Except GoError Node :=
  match os.lookup pipe.name with
  | none => .error (.pathError "stat" .noEntry)
  | some n =>
    match n.statErr with
    | some e => .error (.pathError "stat" e)
    | none => .ok n

/-- The call `pipe.Close()`. -/
def File.Close (os : OS) (pipe : File) : OS :=
  { os with fds := os.fds.filter (fun f => f.fd ≠ pipe.fd) }

/-- The test `mode&os.ModeNamedPipe == 0` for the mode of an object. -/
def notNamedPipe (n : Node) : Bool := n.kind ≠ Kind.fifo

/-- The function `makeOrOpenFifo(name, flag, perm)`, lines 14-49: the operating-system state it leaves
and the pair `(*os.File, error)` it returns. -/
def makeOrOpenFifo (os : OS) (name : String) (flag : Nat) (perm : Nat) :
    OS × Except GoError File :=
  -- err := syscall.Mkfifo(name, uint32(perm.Perm()))
  match Mkfifo os name (perm &&& 0x1ff) with
  | (os1, mkErr) =>
    let proceed (exists_ : Bool) : OS × Except GoError File :=
      -- pipe, err := os.OpenFile(name, flag, perm)
      match OpenFile os1 name flag perm with
      | (os2, .error err) => (os2, .error err)
      | (os2, .ok pipe) =>
        if exists_ = false then (os2, .ok pipe)
        else
          match File.Stat os2 pipe with
          | .error err => (File.Close os2 pipe, .error err)
          | .ok info =>
            if notNamedPipe info then (File.Close os2 pipe, .error .ErrExist)
            else (os2, .ok pipe)
    match mkErr with
    | some err => if IsExist err then proceed true else (os1, .error err)
    | none => proceed false

/-! ## Start-up of `main` -/

/-- What `main` prints on standard output before its event loop. -/
inductive Notice
  /-- the text `Usage:`, a newline, the program name `prog`, then
  ` /path/to/java -jar /path/to/server.jar [-arguments...]` and a newline -/
  | usage (prog : String)
  /-- the line `Started` -/
  | started
  deriving DecidableEq, Repr

/-- What `main` has done when it either leaves early or enters its event loop. -/
structure Startup where
  /-- the operating-system state -/
  os : OS
  /-- what was printed on standard output -/
  stdout : List Notice
  /-- what `log.Fatal` printed -/
  stderr : List String
  /-- the child command started by `cmd.Start()`: path and arguments -/
  spawned : Option (String × List String)
  /-- the status the process exited with: `none` when the event loop was entered -/
  exit : Option Nat
  /-- the pipe handed to `commandReader` -/
  pipe : Option File
  deriving DecidableEq, Repr

/-- The usage test of `main`, line 67, on `os.Args`. -/
def usageRequested (osArgs : List String) : Bool :=
  let argLength := (osArgs.drop 1).length
  decide (argLength < 3) ||
    (decide (argLength > 0) && (osArgs.getD 1 "" == "-h" || osArgs.getD 1 "" == "--help"))

/-- The lines 65-113 of `main`: from `os.Args`, the operating-system state and the
outcome of starting the child (`stdinPipeErr`: `cmd.StdinPipe()` fails; `startErr`: the
message of the error `cmd.Start()` fails with). -/
def mainStartup (osArgs : List String) (os : OS) (stdinPipeErr : Bool)
    (startErr : Option String) : Startup :=
  if usageRequested osArgs then
    { os := os,
      stdout := [.usage (osArgs.getD 0 "")],
      stderr := [], spawned := none, exit := some 1, pipe := none }
  else
    match makeOrOpenFifo os "minecraft.control" (O_RDONLY ||| O_NONBLOCK) 0o660 with
    | (os1, .error err) =>
      if IsExist err then
        { os := os1, stdout := [],
          stderr := ["ERROR: minecraft.control exists and is not a pipe."],
          spawned := none, exit := some 1, pipe := none }
      else
        { os := os1, stdout := [],
          stderr := ["ERROR: Could not open minecraft.control for reading."],
          spawned := none, exit := some 1, pipe := none }
    | (os1, .ok pipe) =>
      -- cmd := exec.Command(os.Args[1], os.Args[2:]...)
      if stdinPipeErr then
        { os := os1, stdout := [],
          stderr := ["ERROR: Could not connect to subprocess stdin."],
          spawned := none, exit := some 1, pipe := some pipe }
      else
        match startErr with
        | some msg =>
          { os := os1, stdout := [], stderr := [msg],
            spawned := none, exit := some 1, pipe := some pipe }
        | none =>
          { os := os1, stdout := [.started], stderr := [],
            spawned := some (osArgs.getD 1 "", osArgs.drop 2), exit := none,
            pipe := some pipe }

/-! ## The event loop of `main` -/

/-- An operation of the supervisor on the child's input stream. -/
inductive StdinOp
  | write (bytes : List Byte)
  | close
  deriving DecidableEq, Repr

/-- A line the loop prints on standard output. -/
inductive Printed
  | consoleExit
  | signalExit
  | command (c : Line)
  deriving DecidableEq, Repr

/-- A case of the `select` statement that can proceed. -/
inductive Case
  /-- the case `<-cmdWaiter`: the channel was closed after `cmd.Wait()` returned -/
  | cmdWaiter
  /-- the case `<-signals`: a signal is buffered -/
  | signals
  /-- the case `command := <-input`: `commandReader` is sending this line -/
  | input (command : Line)
  deriving DecidableEq, Repr

/-- Where the control of `main` stands. -/
inductive Mode
  /-- at the `select`, line 115 -/
  | running
  /-- at the receive from `cmdWaiter`, line 123, after a signal -/
  | awaitChild
  /-- after `os.Exit` -/
  | exited (code : Nat)
  deriving DecidableEq, Repr

/-- The observable state of the event loop. -/
structure Loop where
  mode : Mode
  /-- the operations on the child's input stream, oldest first -/
  stdin : List StdinOp
  /-- the lines printed, oldest first -/
  stdout : List Printed
  deriving DecidableEq, Repr

/-- The loop as `main` enters it. -/
def Loop.init : Loop := { mode := .running, stdin := [], stdout := [] }

/-- The bytes of `"stop"`. -/
def stopCommand : Line := [115, 116, 111, 112]

/-- The call `fmt.Fprintln(stdin, command)`: the command followed by a newline. -/
def Fprintln (st : Loop) (command : Line) : Loop :=
  { st with stdin := st.stdin ++ [.write (command ++ [10])] }

/-- The `select` statement over the cases that can proceed, listed in the order their
events arrived: it picks one of them by a pseudo-random number (`choice`), and blocks
(`none`) when none can proceed. -/
def select (pending : List Case) (choice : Nat) : Option Case :=
  pending.get? (choice % pending.length)

/-- The body of the `select` case taken, lines 116-128, up to the next blocking point. -/
def handle (st : Loop) : Case → Loop
  | .cmdWaiter =>
    { st with stdout := st.stdout ++ [.consoleExit], mode := .exited 0 }
  | .signals =>
    let st1 := { st with stdout := st.stdout ++ [.signalExit] }
    let st2 := Fprintln st1 stopCommand
    { st2 with stdin := st2.stdin ++ [.close], mode := .awaitChild }
  | .input command =>
    Fprintln { st with stdout := st.stdout ++ [.command command] } command

/-- One scheduling step of `main` from line 114 on: `pending` are the events that can be
received, oldest first, `choice` is the pick of `select`. -/
def step (st : Loop) (pending : List Case) (choice : Nat) : Loop :=
  match st.mode with
  | .running =>
    match select pending choice with
    | some c => handle st c
    | none => st
  | .awaitChild =>
    -- <-cmdWaiter; os.Exit(0)
    if Case.cmdWaiter ∈ pending then { st with mode := .exited 0 } else st
  | .exited _ => st

/-- The loop run over a schedule: at each step the pending events and the pick. -/
def run (st : Loop) (schedule : List (List Case × Nat)) : Loop :=
  schedule.foldl (fun s e => step s e.1 e.2) st

/-- The bytes written to the child's input stream. -/
def stdinBytes : List StdinOp → List Byte
  | [] => []
  | .write bs :: rest => bs ++ stdinBytes rest
  | .close :: rest => stdinBytes rest

/-- The event loop receiving the given command lines, one after the other, with no other
event pending. -/
def relay (commands : List Line) : Loop :=
  run Loop.init (commands.map (fun c => ([Case.input c], 0)))

/-- The writes that relay these command lines. -/
def relayOps (cmds : List Line) : List StdinOp :=
  cmds.map (fun c => StdinOp.write (c ++ [10]))

/-- The shapes the state of the loop can take, for the command lines `cmds` received so
far: running; exited after the child ended by itself; waiting for the child after a signal;
exited after that wait. -/
def LoopInv (cmds : List Line) (st : Loop) : Prop :=
  st = { mode := .running, stdin := relayOps cmds, stdout := cmds.map .command } ∨
  st = { mode := .exited 0, stdin := relayOps cmds,
         stdout := cmds.map .command ++ [.consoleExit] } ∨
  st = { mode := .awaitChild,
         stdin := relayOps cmds ++ [.write (stopCommand ++ [10]), .close],
         stdout := cmds.map .command ++ [.signalExit] } ∨
  st = { mode := .exited 0,
         stdin := relayOps cmds ++ [.write (stopCommand ++ [10]), .close],
         stdout := cmds.map .command ++ [.signalExit] }

/-! ## The pipe as `commandReader` reads it -/

/-- What one `read(2)` on the pipe finds. -/
inductive Chunk
  /-- these bytes are in the pipe; none at all is the end of data (no writer has the pipe
  open): `read(2)` returns 0 -/
  | avail (bytes : List Byte)
  /-- the read fails with this errno -/
  | errno (e : Errno)
  deriving DecidableEq, Repr

/-- The successive finds of the reads on the pipe.  When the script is used up the next
read blocks for good. -/
abbrev Script := List Chunk

/-- An error a `bufio.Scanner` records. -/
inductive ScanErr
  /-- the value `io.EOF` -/
  | EOF
  /-- the value `bufio.ErrTooLong` -/
  | ErrTooLong
  /-- the value `bufio.ErrAdvanceTooFar` -/
  | ErrAdvanceTooFar
  /-- the value `io.ErrNoProgress` -/
  | ErrNoProgress
  /-- the error of a failed read -/
  | read (e : Errno)
  deriving DecidableEq, Repr

/-- The call `pipe.Read(p)` with `len(p) = n`: the bytes read, the error, and the rest of
the script; `none` when the read never returns.  As `os.File.Read` does, it returns at
once on an empty `p`, reads at most `n` bytes and leaves the others in the pipe, and turns
a read of no byte into `io.EOF`. -/
def Read (n : Nat) : Script → Option (List Byte × Option ScanErr × Script)
  | [] => none
  | .errno e :: rest => some ([], some (.read e), rest)
  | .avail bs :: rest =>
    if n = 0 then some ([], none, .avail bs :: rest)
    else if bs = [] then some ([], some .EOF, rest)
    else if bs.length ≤ n then some (bs, none, rest)
    else some (bs.take n, none, .avail (bs.drop n) :: rest)

/-! ## `bufio.Scanner` with `ScanLines` -/

/-- The constant `bufio.MaxScanTokenSize`. -/
def MaxScanTokenSize : Nat := 64 * 1024

/-- The constant `startBufSize` of package `bufio`. -/
def startBufSize : Nat := 4096

/-- The constant `maxConsecutiveEmptyReads` of package `bufio`. -/
def maxConsecutiveEmptyReads : Nat := 100

/-- The largest `int`. -/
def maxInt : Nat := 2 ^ 63 - 1

/-- The function `dropCR` of package `bufio`: drop one trailing carriage return. -/
def dropCR (data : List Byte) : List Byte :=
  if data.length > 0 ∧ data.getLast? = some 13 then data.dropLast else data

/-- The function `bytes.IndexByte(data, c)`; `none` stands for `-1`. -/
def IndexByte : List Byte → Byte → Option Nat
  | [], _ => none
  | b :: bs, c => if b = c then some 0 else (IndexByte bs c).map (fun i => i + 1)

/-- The split function `bufio.ScanLines`: `(advance, token)`, the token `none` for `nil`.
It never returns an error. -/
def ScanLines (data : List Byte) (atEOF : Bool) : Nat × Option (List Byte) :=
  if atEOF = true ∧ data.length = 0 then (0, none)
  else
    match IndexByte data 10 with
    | some i => (i + 1, some (dropCR (data.take i)))
    | none => if atEOF then (data.length, some (dropCR data)) else (0, none)

/-- The fields of a `bufio.Scanner` that `Scan` works on.  The buffer is kept as its
length `buf`, the index `start`, and the bytes `data = s.buf[s.start:s.end]`, so that
`s.end = start + data.length`. -/
structure Scanner where
  buf : Nat
  start : Nat
  data : List Byte
  token : Option (List Byte)
  err : Option ScanErr
  deriving DecidableEq, Repr

/-- The call `bufio.NewScanner(pipe)`. -/
def NewScanner : Scanner :=
  { buf := 0, start := 0, data := [], token := none, err := none }

/-- The method `setErr`: record the first error that is not `io.EOF`. -/
def Scanner.setErr (s : Scanner) (e : ScanErr) : Scanner :=
  if s.err = none ∨ s.err = some .EOF then { s with err := some e } else s

/-- The method `Err`: the first error that is not `io.EOF`. -/
def Scanner.Err (s : Scanner) : Option ScanErr :=
  if s.err = some .EOF then none else s.err

/-- The method `Text`. -/
def Scanner.Text (s : Scanner) : Line := s.token.getD []

/-- The read loop that ends the body of the loop of `Scan`: read into
`s.buf[s.end:len(s.buf)]` until bytes or an error come, at most `tries` times;
`none` when a read never returns. -/
def Scanner.fill : Nat → Scanner → Script → Option (Scanner × Script)
  | 0, s, sc => some (s.setErr .ErrNoProgress, sc)
  | tries + 1, s, sc =>
    match Read (s.buf - (s.start + s.data.length)) sc with
    | none => none
    | some (bytes, some e, sc1) => some (({ s with data := s.data ++ bytes }).setErr e, sc1)
    | some (bytes, none, sc1) =>
      if bytes.length > 0 then some ({ s with data := s.data ++ bytes }, sc1)
      else Scanner.fill tries s sc1

/-- How one pass through the loop of `Scan` ends. -/
inductive Iter
  /-- the method returns `tok` -/
  | ret (tok : Bool) (s : Scanner) (sc : Script)
  /-- the loop goes round -/
  | again (s : Scanner) (sc : Script)
  /-- the read never returns -/
  | blocked
  deriving DecidableEq, Repr

/-- The last part of the loop body of `Scan`: read, then go round the loop. -/
def Scanner.read (s : Scanner) (sc : Script) : Iter :=
  match s.fill (maxConsecutiveEmptyReads + 1) sc with
  | none => .blocked
  | some (s1, sc1) => .again s1 sc1

/-- The part of the loop body of `Scan` after the split function gave no token: give up
on a recorded error, else make room in the buffer (shift, then grow up to
`MaxScanTokenSize`, else fail with `ErrTooLong`) and read. -/
def Scanner.more (s : Scanner) (sc : Script) : Iter :=
  if s.err ≠ none then .ret false { s with start := 0, data := [] } sc
  else
    let s1 : Scanner :=
      if s.start > 0 ∧ (s.start + s.data.length = s.buf ∨ s.start > s.buf / 2)
      then { s with start := 0 } else s
    if s1.start + s1.data.length = s1.buf then
      if s1.buf ≥ MaxScanTokenSize ∨ s1.buf > maxInt / 2 then
        .ret false (s1.setErr .ErrTooLong) sc
      else
        let newSize := if s1.buf * 2 = 0 then startBufSize else s1.buf * 2
        Scanner.read { s1 with buf := min newSize MaxScanTokenSize, start := 0 } sc
    else Scanner.read s1 sc

/-- One pass through the loop of `Scan`.  (The count of empty tokens at the end of data is
left out: `ScanLines` advances with every token it gives.) -/
def Scanner.iter (s : Scanner) (sc : Script) : Iter :=
  if s.data.length > 0 ∨ s.err ≠ none then
    match ScanLines s.data (s.err ≠ none) with
    | (advance, token) =>
      if advance > s.data.length then .ret false (s.setErr .ErrAdvanceTooFar) sc
      else
        let s1 : Scanner :=
          { s with start := s.start + advance, data := s.data.drop advance, token := token }
        if token.isSome then .ret true s1 sc else s1.more sc
  else s.more sc

/-- How a call of `Scan` ends. -/
inductive ScanResult
  /-- it returns `true` -/
  | token (s : Scanner) (sc : Script)
  /-- it returns `false` -/
  | stop (s : Scanner) (sc : Script)
  /-- it never returns: a read blocks for good -/
  | blocked
  deriving DecidableEq, Repr

/-- The method `Scan`, its loop run for at most `fuel` passes; `none` when the fuel runs
out.  (The field `done` is left out: only `ErrFinalToken` sets it, which `ScanLines` never
returns.) -/
def Scanner.Scan : Nat → Scanner → Script → Option ScanResult
  | 0, _, _ => none
  | fuel + 1, s, sc =>
    match s.iter sc with
    | .ret true s1 sc1 => some (.token s1 sc1)
    | .ret false s1 sc1 => some (.stop s1 sc1)
    | .again s1 sc1 => Scanner.Scan fuel s1 sc1
    | .blocked => some .blocked

/-! ## `commandReader` -/

/-- Whether `commandReader` is still at work. -/
inductive Status
  /-- blocked in a read on the pipe: it has not returned -/
  | reading
  /-- it printed this error and returned -/
  | returned (printed : ScanErr)
  deriving DecidableEq, Repr

/-- What `commandReader` has done on a script. -/
structure Reader where
  /-- the lines sent on `input`, oldest first -/
  events : List Line
  status : Status
  /-- the number of calls of `bufio.NewScanner(pipe)` -/
  scans : Nat
  deriving DecidableEq, Repr

/-- The loops of `commandReader`, lines 52-62, from a call of `scanner.Scan()` on. -/
def commandReaderLoop : Nat → Scanner → Script → Option Reader
  | 0, _, _ => none
  | fuel + 1, scanner, sc =>
    match scanner.Scan (fuel + 1) sc with
    | none => none
    | some (.token s1 sc1) =>
      -- input <- scanner.Text()
      (commandReaderLoop fuel s1 sc1).map (fun r => { r with events := s1.Text :: r.events })
    | some (.stop s1 sc1) =>
      match s1.Err with
      | some err => some { events := [], status := .returned err, scans := 0 }
      | none =>
        -- scanner := bufio.NewScanner(pipe)
        (commandReaderLoop fuel NewScanner sc1).map (fun r => { r with scans := r.scans + 1 })
    | some .blocked => some { events := [], status := .reading, scans := 0 }

/-- The number of bytes a script holds. -/
def Script.bytes : Script → Nat
  | [] => 0
  | .avail bs :: rest => bs.length + Script.bytes rest
  | .errno _ :: rest => Script.bytes rest

/-- A number of passes that is enough for `commandReader` on a script. -/
def fuelFor (sc : Script) : Nat := 2 * Script.bytes sc + 3 * sc.length + 2

/-- The function `commandReader(pipe, input)`, lines 51-63, on the script of the pipe:
`none` only if the fuel runs out. -/
def commandReader (sc : Script) : Option Reader :=
  (commandReaderLoop (fuelFor sc) NewScanner sc).map (fun r => { r with scans := r.scans + 1 })

/-! ## What the pipe carried: sessions, lines -/

/-- Cut bytes at the newlines: the runs that a newline ends, and the run after the last
newline; `run` is the run that has begun. -/
def splitRuns (run : List Byte) : List Byte → List (List Byte) × List Byte
  | [] => ([], run)
  | b :: bs =>
    if b = 10 then ((run :: (splitRuns [] bs).1), (splitRuns [] bs).2)
    else splitRuns (run ++ [b]) bs

/-- The bytes of each writer session of a script: a session ends at an end of data; the
last entry is the session that is still open. -/
def sessionsFrom (cur : List Byte) : Script → List (List Byte)
  | [] => [cur]
  | .avail bs :: rest => if bs = [] then cur :: sessionsFrom [] rest else sessionsFrom (cur ++ bs) rest
  | .errno _ :: rest => cur :: sessionsFrom [] rest

/-- The sessions of a script. -/
def sessionsOf (sc : Script) : List (List Byte) := sessionsFrom [] sc

/-- The bytes of a writer session that writes these lines, each followed by a newline. -/
def sessionBytes (lines : List Line) : List Byte :=
  (lines.map (fun l => l ++ [10])).flatten

/-- No read of the script fails. -/
def Script.noFailure : Script → Bool
  | [] => true
  | .avail _ :: rest => Script.noFailure rest
  | .errno _ :: _ => false

/-- The number of ends of data in a script. -/
def Script.ends : Script → Nat
  | [] => 0
  | .avail bs :: rest => (if bs = [] then 1 else 0) + Script.ends rest
  | .errno _ :: rest => Script.ends rest

/-- Every run of bytes between newlines of a session is shorter than `MaxScanTokenSize`. -/
def shortRuns (session : List Byte) : Prop :=
  (∀ l ∈ (splitRuns [] session).1, l.length < MaxScanTokenSize) ∧
    (splitRuns [] session).2.length < MaxScanTokenSize

/-- Whether the runs of a session are short can be computed. -/
instance shortRunsDecidable (session : List Byte) : Decidable (shortRuns session) := by
  unfold shortRuns
  infer_instance

/-! ## Reference semantics of the reader -/

/-- Bytes fed to a scanner that holds the unfinished run `run`: the lines it gives, and
the unfinished run left, or `none` when a run fills the largest buffer. -/
def feed (run : List Byte) : List Byte → List Line × Option (List Byte)
  | [] => ([], some run)
  | b :: bs =>
    if b = 10 then (dropCR run :: (feed [] bs).1, (feed [] bs).2)
    else if run.length + 1 ≥ MaxScanTokenSize then ([], none)
    else feed (run ++ [b]) bs

/-- The line a scanner gives for the unfinished run at the end of data. -/
def flush (run : List Byte) : List Line := if run = [] then [] else [dropCR run]

/-- The reader by the byte: what a reader holding the unfinished run `run` does on a
script. -/
def refReader (run : List Byte) : Script → Reader
  | [] => { events := [], status := .reading, scans := 0 }
  | .errno e :: _ => { events := flush run, status := .returned (.read e), scans := 0 }
  | .avail bs :: rest =>
    if bs = [] then
      let r := refReader [] rest
      { r with events := flush run ++ r.events, scans := r.scans + 1 }
    else
      match feed run bs with
      | (evs, some run1) =>
        let r := refReader run1 rest
        { r with events := evs ++ r.events }
      | (evs, none) => { events := evs, status := .returned .ErrTooLong, scans := 0 }

/-- Put events in front of those of a reader. -/
def Reader.emit (evs : List Line) (r : Reader) : Reader :=
  { r with events := evs ++ r.events }

/-- Count one more scanner. -/
def Reader.rescan (r : Reader) : Reader := { r with scans := r.scans + 1 }

/-- What the reader does once its scanner has given the lines of its buffer, by the error
the scanner holds: `run` is the unfinished run left in the buffer. -/
def refTail (err : Option ScanErr) (run : List Byte) (sc : Script) : Reader :=
  match err with
  | none => refReader run sc
  | some .EOF => Reader.emit (flush run) (Reader.rescan (refReader [] sc))
  | some e => { events := flush run, status := .returned e, scans := 0 }

/-- What the reader does from a call of `Scan` on, by the bytes its scanner holds. -/
def refFrom (s : Scanner) (sc : Script) : Reader :=
  match feed [] s.data with
  | (evs, none) => { events := evs, status := .returned .ErrTooLong, scans := 0 }
  | (evs, some run) => Reader.emit evs (refTail s.err run sc)

/-- The states of a scanner at the calls of `Scan` in `commandReader`: the buffer is no
longer than `MaxScanTokenSize` and holds the data; a recorded error is the end of data or
a failed read, and was recorded when the buffer had room. -/
def Scanner.Inv (s : Scanner) : Prop :=
  s.buf ≤ MaxScanTokenSize ∧ s.start + s.data.length ≤ s.buf ∧
    (s.err = none ∨
      ((s.err = some .EOF ∨ ∃ e, s.err = some (.read e)) ∧ s.start + s.data.length < s.buf))

/-- A measure that every pass of the loops of `commandReader` decreases. -/
def measure (s : Scanner) (sc : Script) : Nat :=
  2 * Script.bytes sc + 3 * sc.length + s.data.length + (if s.err = none then 0 else 1)

/-- What a pass through the loop of `Scan` has to do: keep the states of the scanner,
decrease the measure, and do what the reader by the byte does. -/
def IterOK (s : Scanner) (sc : Script) : Iter → Prop
  | .ret true s1 sc1 =>
    s1.Inv ∧ measure s1 sc1 < measure s sc ∧
      refFrom s sc = Reader.emit [s1.Text] (refFrom s1 sc1)
  | .ret false s1 sc1 =>
    match s1.Err with
    | some e => refFrom s sc = { events := [], status := .returned e, scans := 0 }
    | none =>
      measure NewScanner sc1 < measure s sc ∧
        refFrom s sc = Reader.rescan (refReader [] sc1)
  | .again s1 sc1 =>
    s1.Inv ∧ measure s1 sc1 < measure s sc ∧ refFrom s sc = refFrom s1 sc1
  | .blocked => refFrom s sc = { events := [], status := .reading, scans := 0 }

/-- What a call of `Scan` has to do. -/
def ScanOK (s : Scanner) (sc : Script) : ScanResult → Prop
  | .token s1 sc1 => IterOK s sc (.ret true s1 sc1)
  | .stop s1 sc1 => IterOK s sc (.ret false s1 sc1)
  | .blocked => IterOK s sc .blocked

/-- The lines a scanner gives on the sessions of a script, the last one still open: the
lines ended by a newline, and at the end of a closed session the unfinished run too. -/
def sessionEvents : List (List Byte) → List Line
  | [] => []
  | [s] => (feed [] s).1
  | s :: t :: rest =>
    (feed [] s).1 ++ flush ((feed [] s).2.getD []) ++ sessionEvents (t :: rest)

/-- The unfinished run a reader holds after the reads of a script: the bytes after the last
newline of the session that is still open. -/
def unfinishedRun (sc : Script) : List Byte :=
  (splitRuns [] ((sessionsOf sc).getLast?.getD [])).2

/-- The bytes of a writer session that writes the lines `p.1`, each followed by a newline,
and then the fragment `p.2` with no newline after it. -/
def sessionOf (p : List Line × List Byte) : List Byte := sessionBytes p.1 ++ p.2

/-- The events expected of a session that has ended: its lines and, if it is not empty,
its fragment, each less one trailing carriage return. -/
def closedEvents (p : List Line × List Byte) : List Line :=
  p.1.map dropCR ++ (if p.2 = [] then [] else [dropCR p.2])

/-- The events expected of a sequence of sessions of which the last is still open: those
of the sessions that have ended, then the lines of the open one. -/
def streamEvents : List (List Line × List Byte) → List Line
  | [] => []
  | [p] => p.1.map dropCR
  | p :: q :: rest => closedEvents p ++ streamEvents (q :: rest)

/-! # Theorems -/

/-! ## Start-up: the usage test -/

theorem usageRequested_iff (osArgs : List String) :
    usageRequested osArgs = true ↔
      ((osArgs.drop 1).length < 3 ∨ osArgs.getD 1 "" = "-h" ∨ osArgs.getD 1 "" = "--help") := by
  unfold usageRequested
  simp only [Bool.or_eq_true, Bool.and_eq_true, decide_eq_true_eq, beq_iff_eq]
  constructor
  · rintro (h | ⟨_, h | h⟩)
    · exact Or.inl h
    · exact Or.inr (Or.inl h)
    · exact Or.inr (Or.inr h)
  · rintro (h | h | h)
    · exact Or.inl h
    · by_cases h3 : (osArgs.drop 1).length < 3
      · exact Or.inl h3
      · exact Or.inr ⟨by omega, Or.inl h⟩
    · by_cases h3 : (osArgs.drop 1).length < 3
      · exact Or.inl h3
      · exact Or.inr ⟨by omega, Or.inr h⟩

theorem mainStartup_usage (osArgs : List String) (os : OS) (b : Bool) (e : Option String)
    (h : usageRequested osArgs = true) :
    mainStartup osArgs os b e =
      { os := os, stdout := [.usage (osArgs.getD 0 "")], stderr := [], spawned := none,
        exit := some 1, pipe := none } := by
  simp [mainStartup, h]

theorem mainStartup_no_usage (osArgs : List String) (os : OS) (b : Bool) (e : Option String)
    (h : usageRequested osArgs = false) :
    Notice.usage (osArgs.getD 0 "") ∉ (mainStartup osArgs os b e).stdout := by
  simp only [mainStartup, h, Bool.false_eq_true, if_false]
  rcases makeOrOpenFifo os "minecraft.control" (O_RDONLY ||| O_NONBLOCK) 0o660 with
    ⟨os1, err | pipe⟩
  · by_cases hx : IsExist err = true <;> simp [hx]
  · cases b <;> cases e <;> simp

/-- C5, counterexample: with the two positional arguments `./echoserver --flag`, the first
not a help flag, `main` prints the usage text and exits with status 1; it opens no pipe and
starts no child. -/
theorem C5_two_arguments_rejected :
    mainStartup ["minecraft-wrapper", "./echoserver", "--flag"]
        { files := [], cwdWritable := true, umask := 0o022, fds := [], privileged := false } false none =
      { os := { files := [], cwdWritable := true, umask := 0o022, fds := [], privileged := false },
        stdout := [.usage "minecraft-wrapper"], stderr := [], spawned := none,
        exit := some 1, pipe := none } ∧
    (["minecraft-wrapper", "./echoserver", "--flag"].drop 1).length = 2 := by
  decide

/-- C5, amended: `main` prints the usage text and exits with status 1 if and only if there
are fewer than three positional arguments or the first one is `-h` or `--help`; otherwise it
goes on to `makeOrOpenFifo` on `minecraft.control` and, when the pipe is acquired and the
child can be started, starts `os.Args[1]` with the arguments `os.Args[2:]` and enters the
loop. -/
theorem C5_usage_iff_fewer_than_three (osArgs : List String) (os : OS) (b : Bool)
    (e : Option String) :
    (((mainStartup osArgs os b e).stdout = [.usage (osArgs.getD 0 "")] ∧
        (mainStartup osArgs os b e).exit = some 1) ↔
      ((osArgs.drop 1).length < 3 ∨ osArgs.getD 1 "" = "-h" ∨ osArgs.getD 1 "" = "--help")) ∧
    (¬ ((osArgs.drop 1).length < 3 ∨ osArgs.getD 1 "" = "-h" ∨ osArgs.getD 1 "" = "--help") →
      (mainStartup osArgs os b e).os =
          (makeOrOpenFifo os "minecraft.control" (O_RDONLY ||| O_NONBLOCK) 0o660).1 ∧
      ∀ pipe, (makeOrOpenFifo os "minecraft.control" (O_RDONLY ||| O_NONBLOCK) 0o660).2 = .ok pipe →
        mainStartup osArgs os false none =
          { os := (makeOrOpenFifo os "minecraft.control" (O_RDONLY ||| O_NONBLOCK) 0o660).1,
            stdout := [.started], stderr := [],
            spawned := some (osArgs.getD 1 "", osArgs.drop 2), exit := none,
            pipe := some pipe }) := by
  rw [← usageRequested_iff]
  refine ⟨⟨?_, ?_⟩, ?_⟩
  · rintro ⟨h, _⟩
    by_contra hu
    have hu : usageRequested osArgs = false := by simpa using hu
    have := mainStartup_no_usage osArgs os b e hu
    rw [h] at this
    simp at this
  · intro h
    rw [mainStartup_usage osArgs os b e h]
    exact ⟨rfl, rfl⟩
  · intro hu
    have hu : usageRequested osArgs = false := by simpa using hu
    constructor
    · simp only [mainStartup, hu]
      rcases hm : makeOrOpenFifo os "minecraft.control" (O_RDONLY ||| O_NONBLOCK) 0o660 with ⟨os1, r⟩
      cases r with
      | error err => by_cases hx : IsExist err = true <;> simp [hx]
      | ok pipe =>
        cases b <;> cases e <;> simp
    · intro pipe hp
      rcases hm : makeOrOpenFifo os "minecraft.control" (O_RDONLY ||| O_NONBLOCK) 0o660 with ⟨os1, r⟩
      rw [hm] at hp
      simp only at hp
      subst hp
      simp [mainStartup, hu, hm]

/-- C5, witness: three positional arguments in an empty writable directory. -/
theorem C5_usage_iff_fewer_than_three_witness :
    (mainStartup ["minecraft-wrapper", "java", "-jar", "server.jar"]
        { files := [], cwdWritable := true, umask := 0, fds := [], privileged := false } false none).spawned =
      some ("java", ["-jar", "server.jar"]) := by
  have h := (C5_usage_iff_fewer_than_three ["minecraft-wrapper", "java", "-jar", "server.jar"]
    { files := [], cwdWritable := true, umask := 0, fds := [], privileged := false } false none).2 (by decide)
  rw [h.2 { fd := 3, name := "minecraft.control" } (by rfl)]
  rfl

/-! ## The control channel -/

theorem foldl_max_ge (l : List Nat) (a : Nat) :
    a ≤ l.foldl (fun a b => max a (b + 1)) a ∧
      ∀ x ∈ l, x < l.foldl (fun a b => max a (b + 1)) a := by
  induction l generalizing a with
  | nil => simp
  | cons y ys ih =>
    simp only [List.foldl_cons, List.mem_cons]
    have h1 := (ih (max a (y + 1))).1
    have h2 := (ih (max a (y + 1))).2
    refine ⟨by omega, ?_⟩
    rintro x (rfl | hx)
    · omega
    · exact h2 x hx

theorem freshFd_gt (os : OS) : ∀ f ∈ os.fds, f.fd < os.freshFd := by
  intro f hf
  exact (foldl_max_ge (os.fds.map (fun f => f.fd)) 3).2 f.fd (List.mem_map_of_mem _ hf)

theorem close_fresh (os : OS) (name : String) :
    File.Close { os with fds := os.fds ++ [{ fd := os.freshFd, name := name }] }
      { fd := os.freshFd, name := name } = os := by
  have h : os.fds.filter (fun f => !decide (f.fd = os.freshFd)) = os.fds := by
    rw [List.filter_eq_self]
    intro f hf
    have := freshFd_gt os f hf
    simp
    omega
  simp [File.Close, List.filter_append, h]

theorem Mkfifo_exists (os : OS) (name : String) (mode : Nat) (n : Node)
    (hex : os.lookup name = some n) : Mkfifo os name mode = (os, some (.errno .exist)) := by
  simp [Mkfifo, hex]

/-- What `makeOrOpenFifo`, called as `main` calls it, does on a name that is taken. -/
theorem makeOrOpenFifo_exists (os : OS) (name : String) (n : Node)
    (hex : os.lookup name = some n) :
    makeOrOpenFifo os name (O_RDONLY ||| O_NONBLOCK) 0o660 =
      if n.readable = false then (os, .error (.pathError "open" .access))
      else if n.kind = .socket then (os, .error (.pathError "open" .noDevice))
      else match n.statErr with
        | some e => (os, .error (.pathError "stat" e))
        | none =>
          if n.kind ≠ .fifo then (os, .error .ErrExist)
          else ({ os with fds := os.fds ++ [{ fd := os.freshFd, name := name }] },
                .ok { fd := os.freshFd, name := name }) := by
  have hflag : (O_RDONLY ||| O_NONBLOCK) &&& O_TRUNC = 0 := by decide
  have hl : ∀ fds, OS.lookup ⟨os.files, os.cwdWritable, os.umask, fds, os.privileged⟩ name = some n :=
    fun _ => hex
  have hc := close_fresh os name
  rcases hr : n.readable with _ | _
  · simp [makeOrOpenFifo, Mkfifo, OpenFile, hex, hr, IsExist]
  · by_cases hs : n.kind = .socket
    · simp [makeOrOpenFifo, Mkfifo, OpenFile, hex, hr, hs, IsExist]
    · cases hst : n.statErr with
      | some e =>
        simp [makeOrOpenFifo, Mkfifo, OpenFile, File.Stat, hex, hl, hr, hs, hst, hflag, hc,
          IsExist]
      | none =>
        by_cases hk : n.kind = .fifo
        · simp [makeOrOpenFifo, Mkfifo, OpenFile, File.Stat, hex, hl, hr, hs, hst, hflag,
            IsExist, notNamedPipe, hk]
        · simp [makeOrOpenFifo, Mkfifo, OpenFile, File.Stat, hex, hl, hr, hs, hst, hflag, hc,
            IsExist, notNamedPipe, hk]

/-- C4, counterexample: `minecraft.control` is a regular file that the process may not
read.  `makeOrOpenFifo` returns the error of the open, which is not `os.ErrExist`, and
`main` halts with the other diagnostic. -/
theorem C4_unreadable_file_other_error :
    makeOrOpenFifo
        { files := [("minecraft.control",
            { kind := .regular, perm := 0, content := [], readable := false, statErr := none })],
          cwdWritable := true, umask := 0o022, fds := [], privileged := false }
        "minecraft.control" (O_RDONLY ||| O_NONBLOCK) 0o660 =
      ({ files := [("minecraft.control",
            { kind := .regular, perm := 0, content := [], readable := false, statErr := none })],
          cwdWritable := true, umask := 0o022, fds := [], privileged := false },
        .error (.pathError "open" .access)) ∧
    (mainStartup ["minecraft-wrapper", "java", "-jar", "server.jar"]
        { files := [("minecraft.control",
            { kind := .regular, perm := 0, content := [], readable := false, statErr := none })],
          cwdWritable := true, umask := 0o022, fds := [], privileged := false } false none).stderr =
      ["ERROR: Could not open minecraft.control for reading."] := by
  constructor <;> rfl

/-- What `os.OpenFile`, called as `main` calls it, does on a name that is taken. -/
theorem OpenFile_exists (os : OS) (name : String) (n : Node)
    (hex : os.lookup name = some n) :
    OpenFile os name (O_RDONLY ||| O_NONBLOCK) 0o660 =
      if n.readable = false then (os, .error (.pathError "open" .access))
      else if n.kind = .socket then (os, .error (.pathError "open" .noDevice))
      else ({ os with fds := os.fds ++ [{ fd := os.freshFd, name := name }] },
            .ok { fd := os.freshFd, name := name }) := by
  have hflag : (O_RDONLY ||| O_NONBLOCK) &&& O_TRUNC = 0 := by decide
  rcases hr : n.readable with _ | _
  · simp [OpenFile, hex, hr]
  · by_cases hs : n.kind = .socket
    · simp [OpenFile, hex, hr, hs]
    · simp [OpenFile, hex, hr, hs, hflag]

/-- A pipe created under a umask that takes the owner's read bit away cannot be opened by
an unprivileged process: `main` halts with the diagnostic of the failed open. -/
theorem mainStartup_umask_owner_read :
    (mainStartup ["minecraft-wrapper", "java", "-jar", "server.jar"]
        { files := [], cwdWritable := true, umask := 0o400, fds := [], privileged := false }
        false none).stderr =
      ["ERROR: Could not open minecraft.control for reading."] := by
  rfl

/-- C4, amended: when `minecraft.control` exists and is not a named pipe, `makeOrOpenFifo`
returns no handle, leaves no descriptor open and changes nothing, and `main` exits with
status 1 without starting the child.  When the object can be opened for reading and its
`Stat` succeeds, the error is `os.ErrExist` and `main` halts with the diagnostic that the
name exists and is not a pipe.  When the open fails, `makeOrOpenFifo` returns the error of
the open; when the open succeeds and the `Stat` of the opened file fails, it returns the
error of the `Stat`. -/
theorem C4_existing_non_pipe (osArgs : List String) (os : OS) (b : Bool) (e : Option String)
    (n : Node) (hex : os.lookup "minecraft.control" = some n) (hk : n.kind ≠ .fifo) :
    (∃ err, makeOrOpenFifo os "minecraft.control" (O_RDONLY ||| O_NONBLOCK) 0o660 =
        (os, .error err)) ∧
    (mainStartup osArgs os b e).spawned = none ∧
    (mainStartup osArgs os b e).exit = some 1 ∧
    (mainStartup osArgs os b e).os = os ∧
    (n.readable = true → n.kind ≠ .socket → n.statErr = none →
      makeOrOpenFifo os "minecraft.control" (O_RDONLY ||| O_NONBLOCK) 0o660 =
        (os, .error .ErrExist) ∧
      (usageRequested osArgs = false →
        mainStartup osArgs os b e =
          { os := os, stdout := [],
            stderr := ["ERROR: minecraft.control exists and is not a pipe."],
            spawned := none, exit := some 1, pipe := none })) ∧
    (∀ os2 err,
      OpenFile os "minecraft.control" (O_RDONLY ||| O_NONBLOCK) 0o660 = (os2, .error err) →
      makeOrOpenFifo os "minecraft.control" (O_RDONLY ||| O_NONBLOCK) 0o660 =
        (os, .error err)) ∧
    (∀ os2 pipe err,
      OpenFile os "minecraft.control" (O_RDONLY ||| O_NONBLOCK) 0o660 = (os2, .ok pipe) →
      File.Stat os2 pipe = .error err →
      makeOrOpenFifo os "minecraft.control" (O_RDONLY ||| O_NONBLOCK) 0o660 =
        (os, .error err)) ∧
    ((n.readable = false ∨ n.kind = .socket ∨ n.statErr ≠ none) →
      (∃ os2 err, OpenFile os "minecraft.control" (O_RDONLY ||| O_NONBLOCK) 0o660 =
        (os2, .error err)) ∨
      (∃ os2 pipe err, OpenFile os "minecraft.control" (O_RDONLY ||| O_NONBLOCK) 0o660 =
        (os2, .ok pipe) ∧ File.Stat os2 pipe = .error err)) := by
  have hm := makeOrOpenFifo_exists os "minecraft.control" n hex
  have ho := OpenFile_exists os "minecraft.control" n hex
  have hl : OS.lookup ⟨os.files, os.cwdWritable, os.umask,
      os.fds ++ [{ fd := os.freshFd, name := "minecraft.control" }], os.privileged⟩
      "minecraft.control" = some n := hex
  have herr : ∃ err, makeOrOpenFifo os "minecraft.control" (O_RDONLY ||| O_NONBLOCK) 0o660 =
      (os, .error err) := by
    rw [hm]
    by_cases hr : n.readable = false
    · exact ⟨.pathError "open" .access, by simp [hr]⟩
    · by_cases hs : n.kind = .socket
      · exact ⟨.pathError "open" .noDevice, by simp [hr, hs]⟩
      · cases hst : n.statErr with
        | some e => exact ⟨.pathError "stat" e, by simp [hr, hs]⟩
        | none => exact ⟨.ErrExist, by simp [hr, hs, hk]⟩
  obtain ⟨err, he⟩ := herr
  have hstart : (mainStartup osArgs os b e).spawned = none ∧
      (mainStartup osArgs os b e).exit = some 1 ∧ (mainStartup osArgs os b e).os = os := by
    by_cases hu : usageRequested osArgs = true
    · simp [mainStartup, hu]
    · by_cases hx : IsExist err = true <;> simp [mainStartup, hu, he, hx]
  refine ⟨⟨err, he⟩, hstart.1, hstart.2.1, hstart.2.2, ?_, ?_, ?_, ?_⟩
  · intro hr hs hst
    have he2 : makeOrOpenFifo os "minecraft.control" (O_RDONLY ||| O_NONBLOCK) 0o660 =
        (os, .error .ErrExist) := by
      rw [hm]; simp [hr, hs, hst, hk]
    refine ⟨he2, ?_⟩
    intro hu
    simp [mainStartup, hu, he2, IsExist]
  · intro os2 err2 hopen
    rw [ho] at hopen
    rw [hm]
    by_cases hr : n.readable = false
    · simp only [hr, if_true] at hopen ⊢
      cases hopen
      rfl
    · by_cases hs : n.kind = .socket
      · simp only [hr, hs, if_true, if_false] at hopen ⊢
        cases hopen
        rfl
      · simp [hr, hs] at hopen
  · intro os2 pipe err2 hopen hstat
    rw [ho] at hopen
    rw [hm]
    by_cases hr : n.readable = false
    · simp [hr] at hopen
    · by_cases hs : n.kind = .socket
      · simp [hr, hs] at hopen
      · simp only [hr, hs, if_false] at hopen
        cases hopen
        simp only [File.Stat, hl] at hstat
        cases hst : n.statErr with
        | some e1 =>
          rw [hst] at hstat
          simp only [Except.error.injEq] at hstat
          simp [hr, hs, hstat]
        | none =>
          rw [hst] at hstat
          simp at hstat
  · intro hfail
    rw [ho]
    by_cases hr : n.readable = false
    · exact Or.inl ⟨os, .pathError "open" .access, by simp [hr]⟩
    · by_cases hs : n.kind = .socket
      · exact Or.inl ⟨os, .pathError "open" .noDevice, by simp [hr, hs]⟩
      · cases hst : n.statErr with
        | none =>
          rcases hfail with h | h | h
          · exact absurd h hr
          · exact absurd h hs
          · exact absurd hst h
        | some e1 =>
          exact Or.inr ⟨⟨os.files, os.cwdWritable, os.umask,
            os.fds ++ [{ fd := os.freshFd, name := "minecraft.control" }], os.privileged⟩,
            { fd := os.freshFd, name := "minecraft.control" }, .pathError "stat" e1,
            by simp [hr, hs], by simp [File.Stat, hl, hst]⟩

/-- C4, witness: `minecraft.control` is a readable regular file. -/
theorem C4_existing_non_pipe_witness :
    (mainStartup ["minecraft-wrapper", "java", "-jar", "server.jar"]
        { files := [("minecraft.control",
            { kind := .regular, perm := 0o644, content := [1, 2], readable := true,
              statErr := none })],
          cwdWritable := true, umask := 0o022, fds := [], privileged := false } false none).spawned = none :=
  (C4_existing_non_pipe ["minecraft-wrapper", "java", "-jar", "server.jar"]
    { files := [("minecraft.control",
        { kind := .regular, perm := 0o644, content := [1, 2], readable := true,
          statErr := none })],
      cwdWritable := true, umask := 0o022, fds := [], privileged := false } false none
    { kind := .regular, perm := 0o644, content := [1, 2], readable := true, statErr := none }
    (by rfl) (by decide)).2.1

/-- C6, counterexample: `minecraft.control` is a named pipe that the process may not
read.  `makeOrOpenFifo` returns the error of the open and no handle. -/
theorem C6_unreadable_pipe_no_handle :
    makeOrOpenFifo
        { files := [("minecraft.control",
            { kind := .fifo, perm := 0o200, content := [], readable := false,
              statErr := none })],
          cwdWritable := true, umask := 0o022, fds := [], privileged := false }
        "minecraft.control" (O_RDONLY ||| O_NONBLOCK) 0o660 =
      ({ files := [("minecraft.control",
            { kind := .fifo, perm := 0o200, content := [], readable := false,
              statErr := none })],
          cwdWritable := true, umask := 0o022, fds := [], privileged := false },
        .error (.pathError "open" .access)) := by
  rfl

/-- C6, amended: when `minecraft.control` already exists, whatever it is, `makeOrOpenFifo`
called as `main` calls it leaves the table of filesystem objects as it was; and when the
object is a named pipe that the process may open for reading and whose `Stat` succeeds, it
returns, with no error, a handle on that name, the one descriptor added to those open. -/
theorem C6_existing_pipe_reused (os : OS) (n : Node)
    (hex : os.lookup "minecraft.control" = some n) :
    (makeOrOpenFifo os "minecraft.control" (O_RDONLY ||| O_NONBLOCK) 0o660).1.files = os.files ∧
    (n.kind = .fifo → n.readable = true → n.statErr = none →
      makeOrOpenFifo os "minecraft.control" (O_RDONLY ||| O_NONBLOCK) 0o660 =
        ({ os with fds := os.fds ++ [{ fd := os.freshFd, name := "minecraft.control" }] },
          .ok { fd := os.freshFd, name := "minecraft.control" })) := by
  have hm := makeOrOpenFifo_exists os "minecraft.control" n hex
  constructor
  · rw [hm]
    by_cases hr : n.readable = false
    · simp [hr]
    · by_cases hs : n.kind = .socket
      · simp [hr, hs]
      · cases hst : n.statErr with
        | some e => simp [hr, hs]
        | none => by_cases hk : n.kind = .fifo <;> simp [hr, hs, hk]
  · intro hk hr hst
    rw [hm]
    simp [hk, hr, hst]

/-- C6, witness: a readable named pipe next to another file. -/
theorem C6_existing_pipe_reused_witness :
    (makeOrOpenFifo
        { files := [("server.jar",
            { kind := .regular, perm := 0o644, content := [7], readable := true,
              statErr := none }),
            ("minecraft.control",
            { kind := .fifo, perm := 0o660, content := [], readable := true,
              statErr := none })],
          cwdWritable := true, umask := 0o022, fds := [], privileged := false }
        "minecraft.control" (O_RDONLY ||| O_NONBLOCK) 0o660).2 =
      .ok { fd := 3, name := "minecraft.control" } := by
  rw [(C6_existing_pipe_reused
    { files := [("server.jar",
        { kind := .regular, perm := 0o644, content := [7], readable := true,
          statErr := none }),
        ("minecraft.control",
        { kind := .fifo, perm := 0o660, content := [], readable := true,
          statErr := none })],
      cwdWritable := true, umask := 0o022, fds := [], privileged := false }
    { kind := .fifo, perm := 0o660, content := [], readable := true, statErr := none }
    (by rfl)).2 rfl rfl rfl]
  rfl

/-! ## The event loop -/

theorem run_nil (st : Loop) : run st [] = st := rfl

theorem run_cons (st : Loop) (e : List Case × Nat) (rest : List (List Case × Nat)) :
    run st (e :: rest) = run (step st e.1 e.2) rest := rfl

theorem run_append (st : Loop) (a b : List (List Case × Nat)) :
    run st (a ++ b) = run (run st a) b := by
  simp [run, List.foldl_append]

theorem select_mem (pending : List Case) (choice : Nat) (c : Case)
    (h : select pending choice = some c) : c ∈ pending := by
  unfold select at h
  exact List.get?_mem h

theorem select_index (pending : List Case) (i : Nat) (hi : i < pending.length) :
    select pending i = pending.get? i := by
  unfold select
  rw [Nat.mod_eq_of_lt hi]

theorem step_running (st : Loop) (pending : List Case) (choice : Nat) (c : Case)
    (hmode : st.mode = .running) (hsel : select pending choice = some c) :
    step st pending choice = handle st c := by
  simp [step, hmode, hsel]

theorem step_exited (st : Loop) (pending : List Case) (choice : Nat) (code : Nat)
    (hmode : st.mode = .exited code) : step st pending choice = st := by
  simp [step, hmode]

theorem run_exited (st : Loop) (schedule : List (List Case × Nat)) (code : Nat)
    (hmode : st.mode = .exited code) : run st schedule = st := by
  induction schedule with
  | nil => rfl
  | cons e rest ih => rw [run_cons, step_exited st _ _ code hmode, ih]

/-- Waiting for the child: nothing is written or printed, and the loop exits, with status
0, exactly when the end of the child is observed. -/
theorem run_awaitChild (st : Loop) (schedule : List (List Case × Nat))
    (hmode : st.mode = .awaitChild) :
    ((∀ e ∈ schedule, Case.cmdWaiter ∉ e.1) → run st schedule = st) ∧
    ((∃ e ∈ schedule, Case.cmdWaiter ∈ e.1) →
      run st schedule = { st with mode := .exited 0 }) := by
  induction schedule with
  | nil => simp [run_nil]
  | cons e rest ih =>
    by_cases hc : Case.cmdWaiter ∈ e.1
    · have hs : step st e.1 e.2 = { st with mode := .exited 0 } := by
        simp [step, hmode, hc]
      constructor
      · intro h
        exact absurd hc (h e (List.mem_cons_self _ _))
      · intro _
        rw [run_cons, hs, run_exited _ rest 0 rfl]
    · have hs : step st e.1 e.2 = st := by simp [step, hmode, hc]
      rw [run_cons, hs]
      constructor
      · intro h
        exact ih.1 (fun x hx => h x (List.mem_cons_of_mem _ hx))
      · rintro ⟨x, hx, hxc⟩
        rcases List.mem_cons.1 hx with rfl | hx
        · exact absurd hxc hc
        · exact ih.2 ⟨x, hx, hxc⟩

theorem relayOps_append (a : List Line) (c : Line) :
    relayOps (a ++ [c]) = relayOps a ++ [.write (c ++ [10])] := by
  simp [relayOps]

theorem stdinBytes_append (a b : List StdinOp) :
    stdinBytes (a ++ b) = stdinBytes a ++ stdinBytes b := by
  induction a with
  | nil => rfl
  | cons x xs ih => cases x <;> simp [stdinBytes, ih]

theorem stdinBytes_relayOps (cmds : List Line) :
    stdinBytes (relayOps cmds) = (cmds.map (fun c => c ++ [10])).flatten := by
  induction cmds with
  | nil => rfl
  | cons c cs ih =>
    have : relayOps (c :: cs) = .write (c ++ [10]) :: relayOps cs := rfl
    rw [this]
    simp only [stdinBytes, ih, List.map_cons, List.flatten_cons]

/-- One step keeps the shape of the state, the received command lines growing by at most
one. -/
theorem step_inv (cmds : List Line) (st : Loop) (pending : List Case) (choice : Nat)
    (h : LoopInv cmds st) :
    LoopInv cmds (step st pending choice) ∨
      ∃ c, LoopInv (cmds ++ [c]) (step st pending choice) := by
  rcases h with h | h | h | h
  · cases hsel : select pending choice with
    | none =>
      left; left
      simp [step, h, hsel]
    | some c =>
      have hs := step_running st pending choice c (by rw [h]) hsel
      cases c with
      | cmdWaiter =>
        left; right; left
        rw [hs, h]; rfl
      | signals =>
        left; right; right; left
        rw [hs, h]
        simp [handle, Fprintln]
      | input command =>
        right
        refine ⟨command, Or.inl ?_⟩
        rw [hs, h]
        simp [handle, Fprintln, relayOps]
  · left; right; left
    rw [step_exited st pending choice 0 (by rw [h]), h]
  · by_cases hc : Case.cmdWaiter ∈ pending
    · left; right; right; right
      simp [step, h, hc]
    · left; right; right; left
      simp [step, h, hc]
  · left; right; right; right
    rw [step_exited st pending choice 0 (by rw [h]), h]

theorem run_inv (schedule : List (List Case × Nat)) (cmds : List Line) (st : Loop)
    (h : LoopInv cmds st) : ∃ more, LoopInv (cmds ++ more) (run st schedule) := by
  induction schedule generalizing cmds st with
  | nil => exact ⟨[], by simpa [run_nil] using h⟩
  | cons e rest ih =>
    rw [run_cons]
    rcases step_inv cmds st e.1 e.2 h with h1 | ⟨c, h1⟩
    · exact ih cmds _ h1
    · obtain ⟨more, hm⟩ := ih (cmds ++ [c]) _ h1
      exact ⟨c :: more, by simpa using hm⟩

theorem run_init_inv (schedule : List (List Case × Nat)) :
    ∃ cmds, LoopInv cmds (run Loop.init schedule) := by
  obtain ⟨more, h⟩ := run_inv schedule [] Loop.init (Or.inl rfl)
  exact ⟨more, by simpa using h⟩

theorem relay_eq (commands : List Line) :
    relay commands =
      { mode := .running, stdin := relayOps commands, stdout := commands.map .command } := by
  unfold relay
  have key : ∀ (cs pre : List Line),
      run { mode := .running, stdin := relayOps pre, stdout := pre.map .command }
          (cs.map (fun c => ([Case.input c], 0))) =
        { mode := .running, stdin := relayOps (pre ++ cs),
          stdout := (pre ++ cs).map .command } := by
    intro cs
    induction cs with
    | nil => intro pre; simp [run_nil]
    | cons c cs ih =>
      intro pre
      rw [List.map_cons, run_cons]
      have hs : step { mode := .running, stdin := relayOps pre, stdout := pre.map .command }
          [Case.input c] 0 =
          { mode := .running, stdin := relayOps (pre ++ [c]),
            stdout := (pre ++ [c]).map .command } := by
        simp [step, select, handle, Fprintln, relayOps]
      rw [hs, ih (pre ++ [c])]
      simp
  simpa using key commands []

/-- C2: a signal taken while running.  The step writes the line `stop` once, closes the
stream right after it, and waits for the child; from then on nothing more is written,
the process stays waiting as long as the end of the child is not observed, and it exits,
with status 0, once it is. -/
theorem C2_signal_shutdown (st : Loop) (pending : List Case) (choice : Nat)
    (schedule : List (List Case × Nat))
    (hmode : st.mode = .running) (hsel : select pending choice = some .signals) :
    step st pending choice =
      { mode := .awaitChild,
        stdin := st.stdin ++ [.write (stopCommand ++ [10]), .close],
        stdout := st.stdout ++ [.signalExit] } ∧
    (run (step st pending choice) schedule).stdin =
      st.stdin ++ [.write (stopCommand ++ [10]), .close] ∧
    ((∀ e ∈ schedule, Case.cmdWaiter ∉ e.1) →
      (run (step st pending choice) schedule).mode = .awaitChild) ∧
    ((∃ e ∈ schedule, Case.cmdWaiter ∈ e.1) →
      (run (step st pending choice) schedule).mode = .exited 0) := by
  have hs : step st pending choice =
      { mode := .awaitChild,
        stdin := st.stdin ++ [.write (stopCommand ++ [10]), .close],
        stdout := st.stdout ++ [.signalExit] } := by
    rw [step_running st pending choice _ hmode hsel]
    simp [handle, Fprintln]
  have hw := run_awaitChild (step st pending choice) schedule (by rw [hs])
  refine ⟨hs, ?_, ?_, ?_⟩
  · by_cases hc : ∃ e ∈ schedule, Case.cmdWaiter ∈ e.1
    · rw [hw.2 hc, hs]
    · rw [hw.1 (by simpa using hc), hs]
  · intro h
    rw [hw.1 h, hs]
  · intro h
    rw [hw.2 h]

/-- C2, witness: the signal is taken first; a command is pending, then the child ends. -/
theorem C2_signal_shutdown_witness :
    step Loop.init [Case.signals] 0 =
      { mode := .awaitChild,
        stdin := Loop.init.stdin ++ [.write (stopCommand ++ [10]), .close],
        stdout := Loop.init.stdout ++ [.signalExit] } ∧
    (run (step Loop.init [Case.signals] 0)
        [([Case.input [104, 105]], 0), ([Case.cmdWaiter], 0)]).stdin =
      Loop.init.stdin ++ [.write (stopCommand ++ [10]), .close] ∧
    (run (step Loop.init [Case.signals] 0)
        [([Case.input [104, 105]], 0), ([Case.cmdWaiter], 0)]).mode = .exited 0 :=
  have h := C2_signal_shutdown Loop.init [Case.signals] 0
    [([Case.input [104, 105]], 0), ([Case.cmdWaiter], 0)] rfl rfl
  ⟨h.1, h.2.1, h.2.2.2 ⟨([Case.cmdWaiter], 0), by simp, by simp⟩⟩

/-- C3: when the end of the child is taken while running, after any schedule from the
start, the process exits with status 0 and what was written to the child's input stream
is exactly the relayed command lines, each followed by a newline: the stream was neither
written to by the supervisor itself nor closed. -/
theorem C3_console_exit (schedule : List (List Case × Nat)) (pending : List Case)
    (choice : Nat) (hmode : (run Loop.init schedule).mode = .running)
    (hsel : select pending choice = some .cmdWaiter) :
    ∃ cmds : List Line,
      step (run Loop.init schedule) pending choice =
        { mode := .exited 0, stdin := cmds.map (fun c => StdinOp.write (c ++ [10])),
          stdout := cmds.map .command ++ [.consoleExit] } ∧
      (run Loop.init schedule).stdout = cmds.map .command ∧
      stdinBytes (step (run Loop.init schedule) pending choice).stdin =
        (cmds.map (fun c => c ++ [10])).flatten := by
  obtain ⟨cmds, h⟩ := run_init_inv schedule
  have hrun : run Loop.init schedule =
      { mode := .running, stdin := relayOps cmds, stdout := cmds.map .command } := by
    rcases h with h | h | h | h
    · exact h
    all_goals (rw [h] at hmode; simp at hmode)
  refine ⟨cmds, ?_, ?_, ?_⟩
  · rw [step_running _ pending choice _ hmode hsel, hrun]
    rfl
  · rw [hrun]
  · rw [step_running _ pending choice _ hmode hsel, hrun]
    exact stdinBytes_relayOps cmds

/-- C3, witness: two commands, then the child ends while a signal is pending too. -/
theorem C3_console_exit_witness :
    ∃ cmds : List Line,
      step (run Loop.init [([Case.input [104]], 0), ([Case.input [105]], 0)])
          [Case.cmdWaiter, Case.signals] 0 =
        { mode := .exited 0, stdin := cmds.map (fun c => StdinOp.write (c ++ [10])),
          stdout := cmds.map .command ++ [.consoleExit] } ∧
      (run Loop.init [([Case.input [104]], 0), ([Case.input [105]], 0)]).stdout =
        cmds.map .command ∧
      stdinBytes (step (run Loop.init [([Case.input [104]], 0), ([Case.input [105]], 0)])
          [Case.cmdWaiter, Case.signals] 0).stdin = (cmds.map (fun c => c ++ [10])).flatten :=
  C3_console_exit [([Case.input [104]], 0), ([Case.input [105]], 0)]
    [Case.cmdWaiter, Case.signals] 0 (by decide) (by decide)

/-- C8, counterexample: a command arrived first and a signal after it, both pending.
With the pick 1 the `select` takes the signal: `stop` is written, the stream is closed, and
the command that arrived first is not written. -/
theorem C8_later_event_handled_first :
    step Loop.init [Case.input [104, 105], Case.signals] 1 =
      { mode := .awaitChild, stdin := [.write [115, 116, 111, 112, 10], .close],
        stdout := [.signalExit] } := by
  decide

/-- C8, amended: the loop handles one event at a time, and which one is the pick of
`select`, not the order of arrival: at every step taken while running with events pending,
exactly one pending event is handled, every pending event can be the one, and the step
adds to the child's input stream nothing, or one whole line, or the line `stop` and the
close. -/
theorem C8_one_event_any_order (st : Loop) (pending : List Case)
    (hmode : st.mode = .running) (hne : pending ≠ []) :
    (∀ choice, ∃ c ∈ pending, select pending choice = some c ∧
      step st pending choice = handle st c) ∧
    (∀ c ∈ pending, ∃ choice, select pending choice = some c ∧
      step st pending choice = handle st c) ∧
    (∀ choice, (step st pending choice).stdin = st.stdin ∨
      (∃ c, (step st pending choice).stdin = st.stdin ++ [.write (c ++ [10])]) ∨
      (step st pending choice).stdin = st.stdin ++ [.write (stopCommand ++ [10]), .close]) := by
  have hlen : 0 < pending.length := List.length_pos.2 hne
  have hsel : ∀ choice, ∃ c ∈ pending, select pending choice = some c := by
    intro choice
    have hlt : choice % pending.length < pending.length := Nat.mod_lt _ hlen
    refine ⟨pending.get ⟨_, hlt⟩, List.get_mem _ _ _, ?_⟩
    unfold select
    exact List.get?_eq_get hlt
  refine ⟨?_, ?_, ?_⟩
  · intro choice
    obtain ⟨c, hc, hs⟩ := hsel choice
    exact ⟨c, hc, hs, step_running st pending choice c hmode hs⟩
  · intro c hc
    obtain ⟨i, hi, hget⟩ := List.getElem_of_mem hc
    have hs : select pending i = some c := by
      rw [select_index pending i hi, List.get?_eq_get hi]
      simpa using hget
    exact ⟨i, hs, step_running st pending i c hmode hs⟩
  · intro choice
    obtain ⟨c, _, hs⟩ := hsel choice
    rw [step_running st pending choice c hmode hs]
    cases c with
    | cmdWaiter => left; rfl
    | signals => right; right; simp [handle, Fprintln]
    | input command => right; left; exact ⟨command, by simp [handle, Fprintln]⟩

/-- C8, witness: a command and a signal pending at the start. -/
theorem C8_one_event_any_order_witness :
    (∃ choice, step Loop.init [Case.input [104, 105], Case.signals] choice =
        handle Loop.init (Case.input [104, 105])) ∧
    (∃ choice, step Loop.init [Case.input [104, 105], Case.signals] choice =
        handle Loop.init Case.signals) := by
  have h := (C8_one_event_any_order Loop.init [Case.input [104, 105], Case.signals] rfl
    (by simp)).2.1
  obtain ⟨c1, _, h1⟩ := h (Case.input [104, 105]) (by simp)
  obtain ⟨c2, _, h2⟩ := h Case.signals (by simp)
  exact ⟨⟨c1, h1⟩, ⟨c2, h2⟩⟩

/-- C9: in every state the loop reaches after it has taken a signal, whatever was pending
since, the operations on the child's input stream are the relayed command lines received
before the signal, then the line `stop`, then the close, with nothing after them; the
process is waiting for the child or has exited with status 0; and no further schedule
changes what was written. -/
theorem C9_after_signal (schedule : List (List Case × Nat))
    (hsig : Printed.signalExit ∈ (run Loop.init schedule).stdout) :
    ∃ cmds : List Line,
      (run Loop.init schedule).stdin =
        cmds.map (fun c => StdinOp.write (c ++ [10])) ++
          [.write (stopCommand ++ [10]), .close] ∧
      (run Loop.init schedule).stdout = cmds.map .command ++ [.signalExit] ∧
      ((run Loop.init schedule).mode = .awaitChild ∨
        (run Loop.init schedule).mode = .exited 0) ∧
      ∀ more, (run (run Loop.init schedule) more).stdin = (run Loop.init schedule).stdin ∧
        (run (run Loop.init schedule) more).stdout = (run Loop.init schedule).stdout := by
  obtain ⟨cmds, h⟩ := run_init_inv schedule
  refine ⟨cmds, ?_⟩
  rcases h with h | h | h | h
  · rw [h] at hsig; simp at hsig
  · rw [h] at hsig; simp at hsig
  · rw [h]
    refine ⟨rfl, rfl, Or.inl rfl, ?_⟩
    intro more
    have hw := run_awaitChild
      { mode := .awaitChild,
        stdin := relayOps cmds ++ [.write (stopCommand ++ [10]), .close],
        stdout := cmds.map .command ++ [.signalExit] } more rfl
    by_cases hc : ∃ e ∈ more, Case.cmdWaiter ∈ e.1
    · rw [hw.2 hc]; exact ⟨rfl, rfl⟩
    · rw [hw.1 (by simpa using hc)]; exact ⟨rfl, rfl⟩
  · rw [h]
    refine ⟨rfl, rfl, Or.inr rfl, ?_⟩
    intro more
    rw [run_exited _ more 0 rfl]
    exact ⟨rfl, rfl⟩

/-- C9, witness: a command, the signal, then a command and a second signal pending. -/
theorem C9_after_signal_witness :
    ∃ cmds : List Line,
      (run Loop.init [([Case.input [104]], 0), ([Case.signals], 0),
          ([Case.input [105], Case.signals], 1), ([Case.input [105]], 0)]).stdin =
        cmds.map (fun c => StdinOp.write (c ++ [10])) ++
          [.write (stopCommand ++ [10]), .close] :=
  have h := C9_after_signal [([Case.input [104]], 0), ([Case.signals], 0),
    ([Case.input [105], Case.signals], 1), ([Case.input [105]], 0)] (by decide)
  h.elim (fun cmds hc => ⟨cmds, hc.1⟩)

/-! ## Lines of a byte stream -/

theorem IndexByte_none (data : List Byte) : IndexByte data 10 = none ↔ 10 ∉ data := by
  induction data with
  | nil => simp [IndexByte]
  | cons b bs ih =>
    by_cases hb : b = 10
    · simp [IndexByte, hb]
    · have hb2 : ¬ 10 = b := fun h => hb h.symm
      simp [IndexByte, hb, hb2, ih]

theorem IndexByte_some (data : List Byte) (i : Nat) (h : IndexByte data 10 = some i) :
    i < data.length ∧ 10 ∉ data.take i ∧ data = data.take i ++ 10 :: data.drop (i + 1) := by
  induction data generalizing i with
  | nil => simp [IndexByte] at h
  | cons b bs ih =>
    by_cases hb : b = 10
    · simp [IndexByte, hb] at h
      subst h
      simp [hb]
    · simp only [IndexByte, hb, if_false, Option.map_eq_some'] at h
      obtain ⟨j, hj, rfl⟩ := h
      obtain ⟨h1, h2, h3⟩ := ih j hj
      have hb2 : ¬ 10 = b := fun h => hb h.symm
      refine ⟨by simp; omega, by simp [hb2, h2], ?_⟩
      simp only [List.take_succ_cons, List.drop_succ_cons, List.cons_append]
      rw [← h3]

theorem feed_no_newline (bs : List Byte) (run : List Byte) (hnl : 10 ∉ bs)
    (hlen : run.length + bs.length < MaxScanTokenSize) :
    feed run bs = ([], some (run ++ bs)) := by
  induction bs generalizing run with
  | nil => simp [feed]
  | cons b bs ih =>
    have hb : ¬ b = 10 := fun h => hnl (by simp [h])
    have hl : ¬ (run.length + 1 ≥ MaxScanTokenSize) := by
      simp only [List.length_cons] at hlen; omega
    simp only [feed, hb, if_false, hl]
    rw [ih (run ++ [b]) (fun h => hnl (List.mem_cons_of_mem _ h))
      (by simp only [List.length_append, List.length_cons, List.length_nil] at hlen ⊢; omega)]
    simp

theorem feed_too_long (bs : List Byte) (run : List Byte) (hnl : 10 ∉ bs)
    (hrun : run.length < MaxScanTokenSize)
    (hlen : run.length + bs.length ≥ MaxScanTokenSize) :
    feed run bs = ([], none) := by
  induction bs generalizing run with
  | nil => simp at hlen; omega
  | cons b bs ih =>
    have hb : ¬ b = 10 := fun h => hnl (by simp [h])
    by_cases hl : run.length + 1 ≥ MaxScanTokenSize
    · simp [feed, hb, hl]
    · simp only [feed, hb, if_false, hl]
      exact ih (run ++ [b]) (fun h => hnl (List.mem_cons_of_mem _ h))
        (by simp only [List.length_append, List.length_cons, List.length_nil]; omega)
        (by simp only [List.length_append, List.length_cons, List.length_nil] at hlen ⊢; omega)

theorem feed_newline (a rest : List Byte) (run : List Byte) (hnl : 10 ∉ a)
    (hlen : run.length + a.length < MaxScanTokenSize) :
    feed run (a ++ 10 :: rest) = (dropCR (run ++ a) :: (feed [] rest).1, (feed [] rest).2) := by
  induction a generalizing run with
  | nil => simp [feed]
  | cons b bs ih =>
    have hb : ¬ b = 10 := fun h => hnl (by simp [h])
    have hl : ¬ (run.length + 1 ≥ MaxScanTokenSize) := by
      simp only [List.length_cons] at hlen; omega
    simp only [List.cons_append, feed, hb, if_false, hl, List.append_eq]
    rw [ih (run ++ [b]) (fun h => hnl (List.mem_cons_of_mem _ h))
      (by simp only [List.length_append, List.length_cons, List.length_nil] at hlen ⊢; omega)]
    simp

theorem feed_append (a b : List Byte) (run : List Byte) :
    feed run (a ++ b) =
      match feed run a with
      | (evs, some r) => (evs ++ (feed r b).1, (feed r b).2)
      | (evs, none) => (evs, none) := by
  induction a generalizing run with
  | nil => simp [feed]
  | cons x xs ih =>
    by_cases hx : x = 10
    · simp only [List.cons_append, feed, hx, if_true, List.append_eq]
      rw [ih []]
      rcases feed [] xs with ⟨evs, _ | r⟩ <;> simp
    · by_cases hl : run.length + 1 ≥ MaxScanTokenSize
      · simp [feed, hx, hl]
      · simp only [List.cons_append, feed, hx, if_false, hl, List.append_eq]
        exact ih (run ++ [x])

/-- The unfinished run that `feed` leaves is shorter than the largest buffer. -/
theorem feed_run_short (bs : List Byte) (run : List Byte) (evs : List Line) (r : List Byte)
    (hrun : run.length < MaxScanTokenSize) (h : feed run bs = (evs, some r)) :
    r.length < MaxScanTokenSize := by
  induction bs generalizing run evs with
  | nil => simp [feed] at h; rw [← h.2]; exact hrun
  | cons b bs ih =>
    by_cases hb : b = 10
    · simp only [feed, hb, if_true, Prod.mk.injEq] at h
      exact ih [] (feed [] bs).1 (by simp [MaxScanTokenSize]) (Prod.ext rfl h.2)
    · by_cases hl : run.length + 1 ≥ MaxScanTokenSize
      · simp [feed, hb, hl] at h
      · simp only [feed, hb, if_false, hl] at h
        exact ih (run ++ [b]) evs
          (by simp only [List.length_append, List.length_cons, List.length_nil]; omega) h

/-! ## The scanner against the reader by the byte -/

theorem Reader.emit_nil (r : Reader) : Reader.emit [] r = r := by
  cases r; simp [Reader.emit]

theorem Reader.emit_emit (a b : List Line) (r : Reader) :
    Reader.emit a (Reader.emit b r) = Reader.emit (a ++ b) r := by
  simp [Reader.emit]

theorem refFrom_no_newline (s : Scanner) (sc : Script) (hnl : 10 ∉ s.data)
    (hlen : s.data.length < MaxScanTokenSize) :
    refFrom s sc = refTail s.err s.data sc := by
  unfold refFrom
  rw [feed_no_newline s.data [] hnl (by simpa using hlen)]
  simp [Reader.emit_nil]

theorem refFrom_too_long (s : Scanner) (sc : Script) (hnl : 10 ∉ s.data)
    (hlen : s.data.length ≥ MaxScanTokenSize) :
    refFrom s sc = { events := [], status := .returned .ErrTooLong, scans := 0 } := by
  unfold refFrom
  rw [feed_too_long s.data [] hnl (by simp [MaxScanTokenSize]) (by simpa using hlen)]

theorem refFrom_congr (s t : Scanner) (sc : Script) (hd : s.data = t.data)
    (he : s.err = t.err) : refFrom s sc = refFrom t sc := by
  unfold refFrom
  rw [hd, he]

theorem measure_congr (s t : Scanner) (sc : Script) (hd : s.data = t.data)
    (he : s.err = t.err) : measure s sc = measure t sc := by
  unfold measure
  rw [hd, he]

theorem IterOK_congr (s t : Scanner) (sc : Script) (r : Iter) (hd : s.data = t.data)
    (he : s.err = t.err) (h : IterOK t sc r) : IterOK s sc r := by
  cases r with
  | ret tok s1 sc1 =>
    cases tok
    · simp only [IterOK] at h ⊢
      rw [refFrom_congr s t sc hd he, measure_congr s t sc hd he]
      exact h
    · simp only [IterOK] at h ⊢
      rw [refFrom_congr s t sc hd he, measure_congr s t sc hd he]
      exact h
  | again s1 sc1 =>
    simp only [IterOK] at h ⊢
    rw [refFrom_congr s t sc hd he, measure_congr s t sc hd he]
    exact h
  | blocked =>
    simp only [IterOK] at h ⊢
    rw [refFrom_congr s t sc hd he]
    exact h

theorem fill_data (t : Nat) (s : Scanner) (sc sc1 : Script) (bytes : List Byte)
    (h : Read (s.buf - (s.start + s.data.length)) sc = some (bytes, none, sc1))
    (hpos : 0 < bytes.length) :
    s.fill (t + 1) sc = some ({ s with data := s.data ++ bytes }, sc1) := by
  rw [Scanner.fill, h]
  simp [hpos]

theorem read_data (s : Scanner) (sc sc1 : Script) (bytes : List Byte)
    (h : Read (s.buf - (s.start + s.data.length)) sc = some (bytes, none, sc1))
    (hpos : 0 < bytes.length) :
    s.read sc = .again { s with data := s.data ++ bytes } sc1 := by
  rw [Scanner.read, fill_data _ s sc sc1 bytes h hpos]

/-- The read at the end of a pass, on a scanner with no error, no newline in its data, and
room in its buffer. -/
theorem read_ok (s : Scanner) (sc : Script) (herr : s.err = none) (hnl : 10 ∉ s.data)
    (hbuf : s.buf ≤ MaxScanTokenSize) (hfree : s.start + s.data.length < s.buf) :
    IterOK s sc (s.read sc) := by
  have hlen : s.data.length < MaxScanTokenSize := by omega
  have hn0 : ¬ (s.buf - (s.start + s.data.length) = 0) := by omega
  have href : refFrom s sc = refReader s.data sc := by
    rw [refFrom_no_newline s sc hnl hlen, herr]; rfl
  cases sc with
  | nil =>
    simp only [Scanner.read, maxConsecutiveEmptyReads, Scanner.fill, Read, IterOK]
    rw [href]; rfl
  | cons c rest =>
    cases c with
    | errno e =>
      simp only [Scanner.read, maxConsecutiveEmptyReads, Scanner.fill, Read, IterOK,
        Scanner.setErr, herr, true_or, if_true, List.append_nil]
      refine ⟨⟨hbuf, by simpa using hfree.le, Or.inr ⟨Or.inr ⟨e, rfl⟩, by simpa using hfree⟩⟩,
        ?_, ?_⟩
      · simp [measure, herr, Script.bytes]; omega
      · rw [href, refFrom_no_newline _ _ (by simpa using hnl) (by simpa using hlen)]
        simp [refReader, refTail]
    | avail bs =>
      by_cases hbs : bs = []
      · subst hbs
        simp only [Scanner.read, maxConsecutiveEmptyReads, Scanner.fill, Read, hn0, if_false,
          if_true, IterOK, Scanner.setErr, herr, true_or, List.append_nil]
        refine ⟨⟨hbuf, by simpa using hfree.le, Or.inr ⟨Or.inl rfl, by simpa using hfree⟩⟩,
          ?_, ?_⟩
        · simp [measure, herr, Script.bytes]; omega
        · rw [href, refFrom_no_newline _ _ (by simpa using hnl) (by simpa using hlen)]
          simp [refReader, refTail, Reader.emit, Reader.rescan]
      · have hpos : 0 < bs.length := List.length_pos.2 hbs
        by_cases hfit : bs.length ≤ s.buf - (s.start + s.data.length)
        · rw [read_data s _ rest bs (by simp [Read, hn0, hbs, hfit]) hpos]
          simp only [IterOK]
          refine ⟨⟨hbuf, by simp; omega, Or.inl herr⟩, ?_, ?_⟩
          · simp [measure, herr, Script.bytes]; omega
          · rw [href]
            simp only [refReader, hbs, if_false, refFrom, herr]
            rw [feed_append, feed_no_newline s.data [] hnl (by simpa using hlen)]
            simp only [List.nil_append]
            rcases feed s.data bs with ⟨evs, _ | r⟩
            · rfl
            · simp [refTail, Reader.emit]
        · have htake : 0 < (bs.take (s.buf - (s.start + s.data.length))).length := by
            simp; omega
          have hdrop : bs.drop (s.buf - (s.start + s.data.length)) ≠ [] := by
            intro h
            have := congrArg List.length h
            simp at this; omega
          rw [read_data s _ (.avail (bs.drop (s.buf - (s.start + s.data.length))) :: rest)
            (bs.take (s.buf - (s.start + s.data.length))) (by simp [Read, hn0, hbs, hfit]) htake]
          simp only [IterOK]
          refine ⟨⟨hbuf, by simp; omega, Or.inl herr⟩, ?_, ?_⟩
          · simp [measure, herr, Script.bytes]; omega
          · rw [href]
            simp only [refReader, hbs, if_false, refFrom, herr]
            conv_lhs => rw [← List.take_append_drop (s.buf - (s.start + s.data.length)) bs]
            rw [feed_append, feed_append, feed_no_newline s.data [] hnl (by simpa using hlen)]
            simp only [List.nil_append]
            rcases feed s.data (bs.take (s.buf - (s.start + s.data.length))) with ⟨evs, _ | r⟩
            · rfl
            · simp only [refTail, refReader, hdrop, if_false]
              rcases feed r (bs.drop (s.buf - (s.start + s.data.length))) with ⟨evs2, _ | r2⟩
              · simp [Reader.emit]
              · simp [Reader.emit]

theorem MaxScanTokenSize_eq : MaxScanTokenSize = 65536 := by decide

theorem maxInt_half : maxInt / 2 = 4611686018427387903 := by decide

/-- The second half of a pass, on a scanner with no error and no newline in its data. -/
theorem more_ok (s : Scanner) (sc : Script) (hinv : s.Inv) (herr : s.err = none)
    (hnl : 10 ∉ s.data) : IterOK s sc (s.more sc) := by
  obtain ⟨hbuf, hend, _⟩ := hinv
  have hM := MaxScanTokenSize_eq
  have hI := maxInt_half
  unfold Scanner.more
  rw [if_neg (by simp [herr])]
  by_cases hshift : s.start > 0 ∧ (s.start + s.data.length = s.buf ∨ s.start > s.buf / 2)
  · simp only [hshift, and_self, if_true]
    have hnf : ¬ (0 + s.data.length = s.buf) := by omega
    simp only [hnf, if_false]
    exact IterOK_congr s { s with start := 0 } sc _ rfl rfl
      (read_ok { s with start := 0 } sc herr hnl hbuf (by simp; omega))
  · simp only [hshift, if_false]
    by_cases hfull : s.start + s.data.length = s.buf
    · simp only [hfull, if_true]
      have hstart : s.start = 0 := by
        by_contra h0
        exact hshift ⟨Nat.pos_of_ne_zero h0, Or.inl hfull⟩
      by_cases hmax : s.buf ≥ MaxScanTokenSize ∨ s.buf > maxInt / 2
      · simp only [hmax, if_true]
        have hE : (s.setErr .ErrTooLong).Err = some .ErrTooLong := by
          simp [Scanner.setErr, Scanner.Err, herr]
        simp only [IterOK, hE]
        exact refFrom_too_long s sc hnl (by omega)
      · simp only [hmax, if_false]
        refine IterOK_congr s _ sc _ rfl rfl (read_ok _ sc herr hnl ?_ ?_)
        · simp
        · simp only [startBufSize]
          by_cases hz : s.buf * 2 = 0
          · simp only [hz, if_true]; omega
          · simp only [hz, if_false]; omega
    · simp only [hfull, if_false]
      exact read_ok s sc herr hnl hbuf (by omega)

/-- A pass that finds a newline in the data gives the line before it. -/
theorem token_ok (s : Scanner) (sc : Script) (i : Nat) (hinv : s.Inv)
    (hi : IndexByte s.data 10 = some i) :
    IterOK s sc (.ret true
      { s with start := s.start + (i + 1), data := s.data.drop (i + 1),
               token := some (dropCR (s.data.take i)) } sc) := by
  obtain ⟨hbuf, hend, herr⟩ := hinv
  obtain ⟨hlt, hnl, hsplit⟩ := IndexByte_some s.data i hi
  simp only [IterOK]
  refine ⟨⟨hbuf, by simp; omega, ?_⟩, ?_, ?_⟩
  · rcases herr with h | ⟨h, hs⟩
    · exact Or.inl h
    · exact Or.inr ⟨h, by simp; omega⟩
  · simp [measure]; omega
  · unfold refFrom
    simp only [Scanner.Text, Option.getD_some]
    conv_lhs => rw [hsplit]
    rw [feed_newline _ _ [] hnl (by simp; omega)]
    simp only [List.nil_append]
    rcases feed [] (s.data.drop (i + 1)) with ⟨evs, _ | r⟩
    · simp [Reader.emit]
    · simp [Reader.emit]

theorem refTail_flush (e0 : ScanErr) (data : List Byte) (sc : Script) (hd : data ≠ [])
    (he : e0 = .EOF ∨ ∃ e, e0 = .read e) :
    refTail (some e0) data sc = Reader.emit [dropCR data] (refTail (some e0) [] sc) := by
  rcases he with rfl | ⟨e, rfl⟩
  · simp [refTail, flush, hd, Reader.emit]
  · simp [refTail, flush, hd, Reader.emit]

/-- Every pass through the loop of `Scan` does what the reader by the byte does. -/
theorem iter_ok (s : Scanner) (sc : Script) (hinv : s.Inv) : IterOK s sc (s.iter sc) := by
  have hinv0 := hinv
  obtain ⟨hbuf, hend, herr⟩ := hinv
  have hM := MaxScanTokenSize_eq
  rcases herr with herr | ⟨herr, hstrict⟩
  · -- no error recorded
    unfold Scanner.iter
    by_cases hd : s.data.length > 0
    · simp only [hd, true_or, if_true, herr, ne_eq, not_true_eq_false, decide_False]
      cases hi : IndexByte s.data 10 with
      | some i =>
        have hlt := (IndexByte_some s.data i hi).1
        have hadv : ¬ (i + 1 > s.data.length) := by omega
        simp only [ScanLines, Bool.false_eq_true, false_and, if_false, hi, hadv,
          Option.isSome_some, if_true]
        have := token_ok s sc i hinv0 hi
        rw [herr] at this
        exact this
      | none =>
        have hnl := (IndexByte_none s.data).1 hi
        simp only [ScanLines, Bool.false_eq_true, false_and, if_false, hi, gt_iff_lt,
          Nat.not_lt_zero, Option.isSome_none, Nat.add_zero, List.drop_zero]
        exact IterOK_congr s
          { buf := s.buf, start := s.start, data := s.data, token := none, err := none } sc _
          rfl herr
          (more_ok { buf := s.buf, start := s.start, data := s.data, token := none,
                     err := none } sc ⟨hbuf, hend, Or.inl rfl⟩ rfl hnl)
    · have hnil : s.data = [] := List.length_eq_zero.1 (by omega)
      simp only [hd, herr, ne_eq, not_true_eq_false, or_self, if_false]
      exact more_ok s sc hinv0 herr (by simp [hnil])
  · -- the end of data or a failed read is recorded
    have hne : s.err ≠ none := by
      rcases herr with h | ⟨e, h⟩ <;> simp [h]
    obtain ⟨e0, he0⟩ := Option.ne_none_iff_exists'.1 hne
    have he0' : e0 = .EOF ∨ ∃ e, e0 = .read e := by
      rcases herr with h | ⟨e, h⟩
      · left; rw [he0] at h; exact Option.some.inj h
      · right; exact ⟨e, by rw [he0] at h; exact Option.some.inj h⟩
    unfold Scanner.iter
    simp only [hne, ne_eq, not_false_eq_true, or_true, if_true, decide_True]
    by_cases hd : s.data.length = 0
    · have hnil : s.data = [] := List.length_eq_zero.1 hd
      simp only [ScanLines, hd, and_self, if_true, gt_iff_lt, Nat.lt_irrefl, if_false,
        Option.isSome_none, Nat.add_zero, List.drop_zero, Bool.false_eq_true]
      unfold Scanner.more
      simp only [hne, ne_eq, not_false_eq_true, if_true]
      rcases he0' with rfl | ⟨e, rfl⟩
      · simp only [IterOK, Scanner.Err, he0, if_true]
        refine ⟨by simp [measure, NewScanner, he0, hnil], ?_⟩
        unfold refFrom
        rw [hnil, he0]
        simp [feed, refTail, flush, Reader.emit]
      · simp only [IterOK, Scanner.Err, he0]
        simp only [Option.some.injEq, reduceCtorEq, if_false]
        unfold refFrom
        rw [hnil, he0]
        simp [feed, refTail, flush, Reader.emit]
    · cases hi : IndexByte s.data 10 with
      | some i =>
        have hlt := (IndexByte_some s.data i hi).1
        have hadv : ¬ (i + 1 > s.data.length) := by omega
        simp only [ScanLines, hd, and_false, if_false, hi, hadv, Option.isSome_some, if_true]
        exact token_ok s sc i hinv0 hi
      | none =>
        have hnl := (IndexByte_none s.data).1 hi
        have hdne : s.data ≠ [] := fun h => hd (by simp [h])
        simp only [ScanLines, hd, and_false, if_false, hi, if_true, gt_iff_lt, Nat.lt_irrefl,
          Option.isSome_some, List.drop_length]
        simp only [IterOK]
        refine ⟨⟨hbuf, by simp; omega, Or.inr ⟨herr, by simp; omega⟩⟩, ?_, ?_⟩
        · simp [measure]; omega
        · rw [refFrom_no_newline s sc hnl (by omega),
            refFrom_no_newline _ sc (by simp) (by simp [hM])]
          simp only [he0, Scanner.Text, Option.getD_some]
          exact refTail_flush e0 s.data sc hdne he0'

theorem ScanOK_of_again (s s1 : Scanner) (sc sc1 : Script) (r : ScanResult)
    (hm : measure s1 sc1 < measure s sc) (href : refFrom s sc = refFrom s1 sc1)
    (h : ScanOK s1 sc1 r) : ScanOK s sc r := by
  cases r with
  | token s2 sc2 =>
    simp only [ScanOK, IterOK] at h ⊢
    exact ⟨h.1, by omega, by rw [href]; exact h.2.2⟩
  | stop s2 sc2 =>
    simp only [ScanOK, IterOK] at h ⊢
    cases hE : s2.Err with
    | some e =>
      rw [hE] at h
      simp only at h ⊢
      rw [href]; exact h
    | none =>
      rw [hE] at h
      simp only at h ⊢
      exact ⟨by omega, by rw [href]; exact h.2⟩
  | blocked =>
    simp only [ScanOK, IterOK] at h ⊢
    rw [href]; exact h

/-- A call of `Scan` with enough fuel ends, and does what the reader by the byte does. -/
theorem Scan_ok (fuel : Nat) (s : Scanner) (sc : Script) (hinv : s.Inv)
    (hfuel : measure s sc < fuel) : ∃ r, s.Scan fuel sc = some r ∧ ScanOK s sc r := by
  induction fuel generalizing s sc with
  | zero => omega
  | succ fuel ih =>
    have hit := iter_ok s sc hinv
    rw [Scanner.Scan]
    cases hi : s.iter sc with
    | ret tok s1 sc1 =>
      rw [hi] at hit
      cases tok
      · exact ⟨.stop s1 sc1, rfl, hit⟩
      · exact ⟨.token s1 sc1, rfl, hit⟩
    | again s1 sc1 =>
      rw [hi] at hit
      simp only [IterOK] at hit
      obtain ⟨r, hr, hok⟩ := ih s1 sc1 hit.1 (by omega)
      exact ⟨r, hr, ScanOK_of_again s s1 sc sc1 r hit.2.1 hit.2.2 hok⟩
    | blocked =>
      rw [hi] at hit
      exact ⟨.blocked, rfl, hit⟩

theorem NewScanner_inv : NewScanner.Inv := by
  simp [Scanner.Inv, NewScanner]

theorem refFrom_new (sc : Script) : refFrom NewScanner sc = refReader [] sc := by
  simp [refFrom, NewScanner, feed, refTail, Reader.emit_nil]

/-- The loops of `commandReader` with enough fuel do what the reader by the byte does. -/
theorem commandReaderLoop_eq (fuel : Nat) (s : Scanner) (sc : Script) (hinv : s.Inv)
    (hfuel : measure s sc < fuel) : commandReaderLoop fuel s sc = some (refFrom s sc) := by
  induction fuel generalizing s sc with
  | zero => omega
  | succ fuel ih =>
    obtain ⟨r, hr, hok⟩ := Scan_ok (fuel + 1) s sc hinv hfuel
    rw [commandReaderLoop, hr]
    cases r with
    | token s1 sc1 =>
      simp only [ScanOK, IterOK] at hok
      simp only
      rw [ih s1 sc1 hok.1 (by omega), hok.2.2]
      simp [Reader.emit]
    | stop s1 sc1 =>
      simp only [ScanOK, IterOK] at hok
      cases hE : s1.Err with
      | some e =>
        rw [hE] at hok
        simp only at hok
        simp only [hE]
        rw [hok]
      | none =>
        rw [hE] at hok
        simp only at hok
        simp only [hE]
        rw [ih NewScanner sc1 NewScanner_inv (by omega), hok.2, refFrom_new]
        simp [Reader.rescan]
    | blocked =>
      simp only [ScanOK, IterOK] at hok
      simp only
      rw [hok]

/-- The fuel `commandReader` takes is enough: on every script it has a result, the one
of the reader by the byte. -/
theorem commandReader_eq (sc : Script) :
    commandReader sc = some (Reader.rescan (refReader [] sc)) := by
  unfold commandReader
  rw [commandReaderLoop_eq (fuelFor sc) NewScanner sc NewScanner_inv
    (by simp [measure, fuelFor, NewScanner]), refFrom_new]
  simp [Reader.rescan]

/-! ## The reader by the byte, session by session -/

theorem sessionsFrom_head (sc : Script) (cur : List Byte) :
    ∃ x tl, sessionsFrom cur sc = (cur ++ x) :: tl := by
  induction sc generalizing cur with
  | nil => exact ⟨[], [], by simp [sessionsFrom]⟩
  | cons c rest ih =>
    cases c with
    | errno e => exact ⟨[], sessionsFrom [] rest, by simp [sessionsFrom]⟩
    | avail bs =>
      by_cases hbs : bs = []
      · exact ⟨[], sessionsFrom [] rest, by simp [sessionsFrom, hbs]⟩
      · obtain ⟨x, tl, h⟩ := ih (cur ++ bs)
        exact ⟨bs ++ x, tl, by simp [sessionsFrom, hbs, h]⟩

theorem feed_good_left (a b run : List Byte) (h : (feed run (a ++ b)).2 ≠ none) :
    (feed run a).2 ≠ none := by
  rw [feed_append] at h
  rcases hf : feed run a with ⟨evs, _ | r⟩
  · rw [hf] at h; simp at h
  · simp

/-- The reader by the byte on a script with no failing read, in terms of the sessions of
the script. -/
theorem refReader_sessions (sc : Script) (cur : List Byte) (evs0 : List Line)
    (run : List Byte) (hok : sc.noFailure = true) (hcur : feed [] cur = (evs0, some run)) :
    ((∀ s ∈ sessionsFrom cur sc, (feed [] s).2 ≠ none) →
      Reader.emit evs0 (refReader run sc) =
        { events := sessionEvents (sessionsFrom cur sc), status := .reading,
          scans := sc.ends }) ∧
    (¬ (∀ s ∈ sessionsFrom cur sc, (feed [] s).2 ≠ none) →
      (refReader run sc).status = .returned .ErrTooLong) := by
  induction sc generalizing cur evs0 run with
  | nil =>
    constructor
    · intro _
      simp [refReader, Reader.emit, sessionsFrom, sessionEvents, hcur, Script.ends]
    · intro h
      exfalso; apply h
      intro s hs
      simp only [sessionsFrom, List.mem_singleton] at hs
      rw [hs, hcur]; simp
  | cons c rest ih =>
    cases c with
    | errno e => simp [Script.noFailure] at hok
    | avail bs =>
      have hok' : Script.noFailure rest = true := by simpa [Script.noFailure] using hok
      by_cases hbs : bs = []
      · subst hbs
        have ih0 := ih [] [] [] hok' (by simp [feed])
        obtain ⟨x, tl, hhead⟩ := sessionsFrom_head rest []
        have hsess : sessionsFrom cur (.avail [] :: rest) = cur :: sessionsFrom [] rest := by
          simp [sessionsFrom]
        rw [hsess]
        constructor
        · intro hgood
          have h1 := ih0.1 (fun s hs => hgood s (List.mem_cons_of_mem _ hs))
          rw [Reader.emit_nil] at h1
          simp only [refReader, if_true, h1, Reader.emit, Script.ends]
          rw [hhead]
          simp [sessionEvents, hcur, Nat.add_comm]
        · intro hbad
          have : ¬ (∀ s ∈ sessionsFrom [] rest, (feed [] s).2 ≠ none) := by
            intro hall
            apply hbad
            intro s hs
            rcases List.mem_cons.1 hs with rfl | hs
            · rw [hcur]; simp
            · exact hall s hs
          simpa [refReader] using ih0.2 this
      · have hsess : sessionsFrom cur (.avail bs :: rest) = sessionsFrom (cur ++ bs) rest := by
          simp [sessionsFrom, hbs]
        rw [hsess]
        have hfa : feed [] (cur ++ bs) = (evs0 ++ (feed run bs).1, (feed run bs).2) := by
          rw [feed_append, hcur]
        rcases hf : feed run bs with ⟨evs1, _ | run1⟩
        · rw [hf] at hfa
          constructor
          · intro hgood
            exfalso
            obtain ⟨x, tl, hhead⟩ := sessionsFrom_head rest (cur ++ bs)
            have := feed_good_left (cur ++ bs) x [] (hgood _ (by rw [hhead]; simp))
            rw [hfa] at this
            simp at this
          · intro _
            simp [refReader, hbs, hf]
        · rw [hf] at hfa
          have ih1 := ih (cur ++ bs) (evs0 ++ evs1) run1 hok' hfa
          constructor
          · intro hgood
            have h1 := ih1.1 hgood
            simp only [refReader, hbs, if_false, hf, Script.ends, Nat.zero_add]
            rw [← h1]
            simp [Reader.emit]
          · intro hbad
            simpa [refReader, hbs, hf] using ih1.2 hbad

/-- With a failing read in the script the reader by the byte returns. -/
theorem refReader_failure (sc : Script) (run : List Byte) (h : sc.noFailure = false) :
    ∃ e, (refReader run sc).status = .returned e := by
  induction sc generalizing run with
  | nil => simp [Script.noFailure] at h
  | cons c rest ih =>
    cases c with
    | errno e => exact ⟨.read e, by simp [refReader]⟩
    | avail bs =>
      have h' : Script.noFailure rest = false := by simpa [Script.noFailure] using h
      by_cases hbs : bs = []
      · obtain ⟨e, he⟩ := ih [] h'
        exact ⟨e, by simpa [refReader, hbs] using he⟩
      · rcases hf : feed run bs with ⟨evs1, _ | run1⟩
        · exact ⟨.ErrTooLong, by simp [refReader, hbs, hf]⟩
        · obtain ⟨e, he⟩ := ih run1 h'
          exact ⟨e, by simpa [refReader, hbs, hf] using he⟩

/-- What the reader by the byte returns with is a too long line or the error of a read. -/
theorem refReader_returned (sc : Script) (run : List Byte) (e : ScanErr)
    (h : (refReader run sc).status = .returned e) : e = .ErrTooLong ∨ ∃ n, e = .read n := by
  induction sc generalizing run with
  | nil => simp [refReader] at h
  | cons c rest ih =>
    cases c with
    | errno n =>
      simp only [refReader, Status.returned.injEq] at h
      exact Or.inr ⟨n, h.symm⟩
    | avail bs =>
      by_cases hbs : bs = []
      · exact ih [] (by simpa [refReader, hbs] using h)
      · rcases hf : feed run bs with ⟨evs1, _ | run1⟩
        · simp only [refReader, hbs, if_false, hf, Status.returned.injEq] at h
          exact Or.inl h.symm
        · exact ih run1 (by simpa [refReader, hbs, hf] using h)

/-- Nothing after a failing read matters. -/
theorem refReader_cut (pre post : Script) (e : Errno) (run : List Byte) :
    refReader run (pre ++ .errno e :: post) = refReader run (pre ++ [.errno e]) := by
  induction pre generalizing run with
  | nil => simp [refReader]
  | cons c rest ih =>
    cases c with
    | errno n => simp [refReader]
    | avail bs =>
      by_cases hbs : bs = []
      · simp [refReader, hbs, ih]
      · rcases hf : feed run bs with ⟨evs1, _ | run1⟩
        · simp [refReader, hbs, hf]
        · simp [refReader, hbs, hf, ih]

/-- A failing read after reads that all succeed: the reader returns with its error. -/
theorem refReader_read_error (pre : Script) (e : Errno) (run : List Byte)
    (hok : pre.noFailure = true) (hrd : (refReader run pre).status = .reading) :
    (refReader run (pre ++ [.errno e])).status = .returned (.read e) ∧
    ((refReader run (pre ++ [.errno e])).events = (refReader run pre).events ∨
      ∃ l, (refReader run (pre ++ [.errno e])).events = (refReader run pre).events ++ [l]) := by
  induction pre generalizing run with
  | nil =>
    by_cases hr : run = []
    · simp [refReader, flush, hr]
    · simp [refReader, flush, hr]
  | cons c rest ih =>
    cases c with
    | errno n => simp [Script.noFailure] at hok
    | avail bs =>
      have hok' : Script.noFailure rest = true := by simpa [Script.noFailure] using hok
      by_cases hbs : bs = []
      · have h1 := ih [] hok' (by simpa [refReader, hbs] using hrd)
        simp only [List.cons_append, refReader, hbs, if_true, List.append_eq]
        refine ⟨h1.1, ?_⟩
        rcases h1.2 with h2 | ⟨l, h2⟩
        · left; rw [h2]
        · right; exact ⟨l, by rw [h2]; simp⟩
      · rcases hf : feed run bs with ⟨evs1, _ | run1⟩
        · simp [refReader, hbs, hf] at hrd
        · have h1 := ih run1 hok' (by simpa [refReader, hbs, hf] using hrd)
          simp only [List.cons_append, refReader, hbs, if_false, hf, List.append_eq]
          refine ⟨h1.1, ?_⟩
          rcases h1.2 with h2 | ⟨l, h2⟩
          · left; rw [h2]
          · right; exact ⟨l, by rw [h2]; simp⟩

/-! ## Lines, runs and sessions -/

theorem splitRuns_run_short (s run : List Byte)
    (h : (∀ l ∈ (splitRuns run s).1, l.length < MaxScanTokenSize) ∧
      (splitRuns run s).2.length < MaxScanTokenSize) :
    run.length < MaxScanTokenSize := by
  induction s generalizing run with
  | nil => simpa [splitRuns] using h.2
  | cons b bs ih =>
    by_cases hb : b = 10
    · simp only [splitRuns, hb, if_true] at h
      exact h.1 run (List.mem_cons_self _ _)
    · simp only [splitRuns, hb, if_false] at h
      have := ih (run ++ [b]) h
      simp only [List.length_append, List.length_cons, List.length_nil] at this
      omega

/-- The reader by the byte accepts the bytes of a session exactly when all the runs
between its newlines are shorter than the largest buffer. -/
theorem feed_good_iff (s run : List Byte) (hrun : run.length < MaxScanTokenSize) :
    (feed run s).2 ≠ none ↔
      ((∀ l ∈ (splitRuns run s).1, l.length < MaxScanTokenSize) ∧
        (splitRuns run s).2.length < MaxScanTokenSize) := by
  induction s generalizing run with
  | nil => simp [feed, splitRuns, hrun]
  | cons b bs ih =>
    by_cases hb : b = 10
    · simp only [feed, splitRuns, hb, if_true, List.mem_cons, forall_eq_or_imp]
      rw [ih [] (by simp [MaxScanTokenSize])]
      constructor
      · rintro ⟨h1, h2⟩
        exact ⟨⟨hrun, h1⟩, h2⟩
      · rintro ⟨⟨_, h1⟩, h2⟩
        exact ⟨h1, h2⟩
    · by_cases hl : run.length + 1 ≥ MaxScanTokenSize
      · simp only [feed, splitRuns, hb, if_false, hl, if_true, ne_eq, not_true_eq_false,
          false_iff]
        intro h
        have := splitRuns_run_short bs (run ++ [b]) h
        simp only [List.length_append, List.length_cons, List.length_nil] at this
        omega
      · simp only [feed, splitRuns, hb, if_false, hl]
        exact ih (run ++ [b])
          (by simp only [List.length_append, List.length_cons, List.length_nil]; omega)

theorem shortRuns_iff (s : List Byte) : shortRuns s ↔ (feed [] s).2 ≠ none :=
  (feed_good_iff s [] (by simp [MaxScanTokenSize])).symm

theorem dropCR_legal (l : List Byte) (h : l.getLast? ≠ some 13) : dropCR l = l := by
  simp [dropCR, h]

/-- The lines of a session that writes legal lines, each followed by a newline, and then
some more bytes. -/
theorem feed_sessionBytes (lines : List Line) (tail : List Byte)
    (hlegal : ∀ l ∈ lines, 10 ∉ l ∧ l.getLast? ≠ some 13 ∧ l.length < MaxScanTokenSize) :
    feed [] (sessionBytes lines ++ tail) = (lines ++ (feed [] tail).1, (feed [] tail).2) := by
  induction lines with
  | nil => simp [sessionBytes]
  | cons l ls ih =>
    obtain ⟨h1, h2, h3⟩ := hlegal l (List.mem_cons_self _ _)
    have hs : sessionBytes (l :: ls) ++ tail = l ++ 10 :: (sessionBytes ls ++ tail) := by
      simp [sessionBytes]
    rw [hs, feed_newline l _ [] h1 (by simpa using h3),
      ih (fun x hx => hlegal x (List.mem_cons_of_mem _ hx))]
    simp [dropCR_legal l h2]

theorem sessionEvents_cons (s : List Byte) (rest : List (List Byte)) (h : rest ≠ []) :
    sessionEvents (s :: rest) =
      (feed [] s).1 ++ flush ((feed [] s).2.getD []) ++ sessionEvents rest := by
  cases rest with
  | nil => exact absurd rfl h
  | cons t tl => rfl

theorem sessionEvents_legal (L : List (List Line)) (M : List (List Byte))
    (hlegal : ∀ s ∈ L, ∀ l ∈ s, 10 ∉ l ∧ l.getLast? ≠ some 13 ∧ l.length < MaxScanTokenSize) :
    sessionEvents (L.map sessionBytes ++ M) = L.flatten ++ sessionEvents M := by
  induction L with
  | nil => simp
  | cons s ss ih =>
    have hf := feed_sessionBytes s [] (hlegal s (List.mem_cons_self _ _))
    simp only [List.append_nil, feed] at hf
    have ih' := ih (fun x hx => hlegal x (List.mem_cons_of_mem _ hx))
    by_cases hne : ss.map sessionBytes ++ M = []
    · have h1 : ss = [] := by
        have := (List.append_eq_nil.1 hne).1
        simpa using this
      have h2 : M = [] := (List.append_eq_nil.1 hne).2
      subst h1; subst h2
      simp [sessionEvents, hf]
    · rw [List.map_cons, List.cons_append, sessionEvents_cons _ _ hne, ih', hf]
      simp [flush]

theorem legal_good (L : List (List Line))
    (hlegal : ∀ s ∈ L, ∀ l ∈ s, 10 ∉ l ∧ l.getLast? ≠ some 13 ∧ l.length < MaxScanTokenSize) :
    ∀ s ∈ L.map sessionBytes, (feed [] s).2 ≠ none := by
  intro s hs
  obtain ⟨x, hx, rfl⟩ := List.mem_map.1 hs
  have hf := feed_sessionBytes x [] (hlegal x hx)
  simp only [List.append_nil, feed] at hf
  rw [hf]; simp

/-- The reader on a script with no failing read whose sessions it accepts. -/
theorem commandReader_sessions (sc : Script) (hok : sc.noFailure = true)
    (hgood : ∀ s ∈ sessionsOf sc, (feed [] s).2 ≠ none) :
    commandReader sc =
      some { events := sessionEvents (sessionsOf sc), status := .reading,
             scans := sc.ends + 1 } := by
  have h := (refReader_sessions sc [] [] [] hok (by simp [feed])).1 hgood
  rw [Reader.emit_nil] at h
  rw [commandReader_eq, h]
  rfl

theorem refReader_long_line (n : Nat) (a : Byte) (tail : List Byte) (rest : Script)
    (hn : n ≥ MaxScanTokenSize) (ha : a ≠ 10) :
    refReader [] (.avail (List.replicate n a ++ tail) :: rest) =
      { events := [], status := .returned .ErrTooLong, scans := 0 } := by
  have hne : List.replicate n a ++ tail ≠ [] := by
    intro h
    have := congrArg List.length h
    simp only [List.length_append, List.length_replicate, List.length_nil] at this
    have hM := MaxScanTokenSize_eq
    omega
  have hnl : (10 : Byte) ∉ List.replicate n a := by
    intro h
    exact ha (List.eq_of_mem_replicate h).symm
  have hf : feed [] (List.replicate n a ++ tail) = ([], none) := by
    rw [feed_append, feed_too_long _ [] hnl (by simp [MaxScanTokenSize])
      (by simpa using hn)]
  simp [refReader, hne, hf]

/-! ## The command channel: claims -/

/-- C1, counterexample: two legal inputs.  A session writes the line `a` followed by a
carriage return, then the newline: the reader gives the line `a`, and the child receives
the two bytes `a`, newline, not the three that were written.  And a session writes a line
of 65536 letters `a`, then the line `b`: the reader returns with `ErrTooLong` and the
child receives nothing, neither then nor later. -/
theorem C1_line_altered_or_dropped :
    (sessionsOf [.avail [97, 13, 10]] = [sessionBytes [[97, 13]]] ∧
      commandReader [.avail [97, 13, 10]] =
        some { events := [[97]], status := .reading, scans := 1 } ∧
      stdinBytes (relay [[97]]).stdin = [97, 10]) ∧
    commandReader [.avail (List.replicate 65536 97 ++ [10]), .avail [98, 10]] =
      some { events := [], status := .returned .ErrTooLong, scans := 1 } := by
  refine ⟨⟨by decide, by decide, by decide⟩, ?_⟩
  rw [commandReader_eq, refReader_long_line 65536 97 [10] _ (by decide) (by decide)]
  rfl

/-- C1, amended: for every sequence of writer sessions, each a finite sequence of lines
that hold no newline, do not end in a carriage return and are shorter than 65536 bytes,
each written followed by a newline, with an end of data between sessions and whatever
the sizes of the reads, `commandReader` sends exactly these lines in the order written and
keeps reading, and the command case of the event loop writes to the child's input stream
exactly their concatenation, each followed by one newline. -/
theorem C1_relay_in_order (sessions : List (List Line)) (sc : Script)
    (hok : sc.noFailure = true)
    (hsess : sessionsOf sc = sessions.map sessionBytes)
    (hlegal : ∀ s ∈ sessions, ∀ l ∈ s,
      10 ∉ l ∧ l.getLast? ≠ some 13 ∧ l.length < MaxScanTokenSize) :
    ∃ r, commandReader sc = some r ∧ r.events = sessions.flatten ∧ r.status = .reading ∧
      stdinBytes (relay r.events).stdin =
        (sessions.flatten.map (fun l => l ++ [10])).flatten := by
  have hgood : ∀ s ∈ sessionsOf sc, (feed [] s).2 ≠ none := by
    rw [hsess]; exact legal_good sessions hlegal
  have hev : sessionEvents (sessionsOf sc) = sessions.flatten := by
    have := sessionEvents_legal sessions [] hlegal
    simpa [hsess, sessionEvents] using this
  refine ⟨_, commandReader_sessions sc hok hgood, hev, rfl, ?_⟩
  simp only [hev]
  rw [relay_eq]
  exact stdinBytes_relayOps _

/-- C1, witness: the sessions `hello` and `world`, the first read in two pieces. -/
theorem C1_relay_in_order_witness :
    ∃ r, commandReader [.avail [104, 101, 108], .avail [108, 111, 10], .avail [],
          .avail [119, 111, 114, 108, 100, 10]] = some r ∧
      r.events = [[[104, 101, 108, 108, 111]], [[119, 111, 114, 108, 100]]].flatten ∧
      r.status = .reading ∧
      stdinBytes (relay r.events).stdin =
        ([[[104, 101, 108, 108, 111]], [[119, 111, 114, 108, 100]]].flatten.map
          (fun l => l ++ [10])).flatten :=
  C1_relay_in_order [[[104, 101, 108, 108, 111]], [[119, 111, 114, 108, 100]]]
    [.avail [104, 101, 108], .avail [108, 111, 10], .avail [],
      .avail [119, 111, 114, 108, 100, 10]]
    (by decide) (by decide) (by decide)

theorem feed_run_eq (s run r : List Byte) (evs : List Line)
    (h : feed run s = (evs, some r)) : r = (splitRuns run s).2 := by
  induction s generalizing run evs with
  | nil =>
    simp only [feed, Prod.mk.injEq, Option.some.injEq] at h
    simp [splitRuns, h.2]
  | cons b bs ih =>
    by_cases hb : b = 10
    · simp only [feed, hb, if_true, Prod.mk.injEq] at h
      simp only [splitRuns, hb, if_true]
      exact ih [] (feed [] bs).1 (Prod.ext rfl h.2)
    · by_cases hl : run.length + 1 ≥ MaxScanTokenSize
      · simp [feed, hb, hl] at h
      · simp only [feed, hb, if_false, hl] at h
        simp only [splitRuns, hb, if_false]
        exact ih (run ++ [b]) evs h

theorem getLast?_cons_ne_nil (x : List Byte) (l : List (List Byte)) (h : l ≠ []) :
    (x :: l).getLast? = l.getLast? := by
  cases l with
  | nil => exact absurd rfl h
  | cons y ys => simp [List.getLast?_cons_cons]

/-- A failing read after reads that all succeed on sessions the reader accepts: the
reader sends, after what it had sent, the unfinished run it holds, if there is one. -/
theorem refReader_read_error_events (pre : Script) (e : Errno) (cur : List Byte)
    (evs0 : List Line) (run : List Byte) (hok : pre.noFailure = true)
    (hcur : feed [] cur = (evs0, some run))
    (hgood : ∀ s ∈ sessionsFrom cur pre, (feed [] s).2 ≠ none) :
    (refReader run (pre ++ [.errno e])).events =
      (refReader run pre).events ++
        flush (splitRuns [] ((sessionsFrom cur pre).getLast?.getD [])).2 := by
  induction pre generalizing cur evs0 run with
  | nil =>
    have := feed_run_eq cur [] run evs0 hcur
    simp [refReader, sessionsFrom, ← this]
  | cons c rest ih =>
    cases c with
    | errno n => simp [Script.noFailure] at hok
    | avail bs =>
      have hok' : Script.noFailure rest = true := by simpa [Script.noFailure] using hok
      by_cases hbs : bs = []
      · subst hbs
        obtain ⟨x, tl, hhead⟩ := sessionsFrom_head rest []
        have hsess : sessionsFrom cur (.avail [] :: rest) = cur :: sessionsFrom [] rest := by
          simp [sessionsFrom]
        rw [hsess] at hgood
        have ih0 := ih [] [] [] hok' (by simp [feed])
          (fun s hs => hgood s (List.mem_cons_of_mem _ hs))
        rw [hsess, getLast?_cons_ne_nil cur _ (by rw [hhead]; simp)]
        simp only [List.cons_append, refReader, if_true, List.append_eq]
        rw [ih0]
        simp
      · have hsess : sessionsFrom cur (.avail bs :: rest) = sessionsFrom (cur ++ bs) rest := by
          simp [sessionsFrom, hbs]
        rw [hsess] at hgood ⊢
        have hfa : feed [] (cur ++ bs) = (evs0 ++ (feed run bs).1, (feed run bs).2) := by
          rw [feed_append, hcur]
        rcases hf : feed run bs with ⟨evs1, _ | run1⟩
        · exfalso
          rw [hf] at hfa
          obtain ⟨x, tl, hhead⟩ := sessionsFrom_head rest (cur ++ bs)
          have := feed_good_left (cur ++ bs) x [] (hgood _ (by rw [hhead]; simp))
          rw [hfa] at this
          simp at this
        · rw [hf] at hfa
          have ih1 := ih (cur ++ bs) (evs0 ++ evs1) run1 hok' hfa hgood
          simp only [List.cons_append, refReader, hbs, if_false, hf, List.append_eq]
          rw [ih1]
          simp

/-- C7, counterexample: two inputs.  The pipe delivers 65536 letters `a` and no newline:
every read succeeds, and `commandReader` prints `ErrTooLong` and returns.  And the pipe
delivers the letter `a`, then a read fails: nothing had been sent when that read failed,
and the line `a` is sent after it, before the error is printed. -/
theorem C7_returns_without_read_error :
    (Script.noFailure [.avail (List.replicate 65536 97)] = true ∧
      commandReader [.avail (List.replicate 65536 97)] =
        some { events := [], status := .returned .ErrTooLong, scans := 1 }) ∧
    (commandReader [.avail [97]] = some { events := [], status := .reading, scans := 1 } ∧
      commandReader [.avail [97], .errno .ioFailure] =
        some { events := [[97]], status := .returned (.read .ioFailure), scans := 1 }) := by
  refine ⟨⟨rfl, ?_⟩, by decide, by decide⟩
  have h := refReader_long_line 65536 97 [] [] (by decide) (by decide)
  rw [List.append_nil] at h
  rw [commandReader_eq, h]
  rfl

/-- C7, amended: on every script `commandReader` has a result.  It keeps reading exactly
when no read fails and every run of bytes between newlines, in every session, is shorter
than 65536 bytes; it has then made one scanner at the start and one more after each end of
data.  When it returns, what it printed is `ErrTooLong` or the error of a failed read.
When a read fails after reads that all succeeded on such runs, it prints the error of that
read, nothing after that read matters, and it has sent what it had sent before and, if
the bytes after the last newline of the open session are not empty, one more line: those
bytes less one trailing carriage return. -/
theorem C7_returns_iff (sc : Script) :
    ∃ r, commandReader sc = some r ∧
      (r.status = .reading ↔ (sc.noFailure = true ∧ ∀ s ∈ sessionsOf sc, shortRuns s)) ∧
      (r.status = .reading → r.scans = sc.ends + 1) ∧
      (∀ e, r.status = .returned e → e = .ErrTooLong ∨ ∃ n, e = .read n) ∧
      (∀ pre e post, sc = pre ++ .errno e :: post → pre.noFailure = true →
        (∀ s ∈ sessionsOf pre, shortRuns s) →
        r.status = .returned (.read e) ∧ commandReader (pre ++ [.errno e]) = some r ∧
        ∃ r0, commandReader pre = some r0 ∧ r0.status = .reading ∧
          r.events = r0.events ++
            (if unfinishedRun pre = [] then [] else [dropCR (unfinishedRun pre)])) := by
  refine ⟨_, commandReader_eq sc, ?_, ?_, ?_, ?_⟩
  · show (refReader [] sc).status = .reading ↔ _
    constructor
    · intro hrd
      have hok : sc.noFailure = true := by
        by_contra hno
        obtain ⟨e, he⟩ := refReader_failure sc [] (by simpa using hno)
        rw [he] at hrd
        simp at hrd
      refine ⟨hok, ?_⟩
      by_contra hbad
      have hbad' : ¬ ∀ s ∈ sessionsFrom [] sc, (feed [] s).2 ≠ none := by
        intro hall
        exact hbad (fun s hs => (shortRuns_iff s).2 (hall s hs))
      have := (refReader_sessions sc [] [] [] hok (by simp [feed])).2 hbad'
      rw [this] at hrd
      simp at hrd
    · rintro ⟨hok, hshort⟩
      have := (refReader_sessions sc [] [] [] hok (by simp [feed])).1
        (fun s hs => (shortRuns_iff s).1 (hshort s hs))
      rw [Reader.emit_nil] at this
      rw [this]
  · intro hrd
    have hrd' : (refReader [] sc).status = .reading := hrd
    have hok : sc.noFailure = true := by
      by_contra hno
      obtain ⟨e, he⟩ := refReader_failure sc [] (by simpa using hno)
      rw [he] at hrd'
      simp at hrd'
    have hgood : ∀ s ∈ sessionsFrom [] sc, (feed [] s).2 ≠ none := by
      by_contra hbad
      have := (refReader_sessions sc [] [] [] hok (by simp [feed])).2 hbad
      rw [this] at hrd'
      simp at hrd'
    have := (refReader_sessions sc [] [] [] hok (by simp [feed])).1 hgood
    rw [Reader.emit_nil] at this
    show (refReader [] sc).scans + 1 = _
    rw [this]
  · intro e he
    exact refReader_returned sc [] e he
  · intro pre e post hsc hok hshort
    have hgood : ∀ s ∈ sessionsFrom [] pre, (feed [] s).2 ≠ none :=
      fun s hs => (shortRuns_iff s).1 (hshort s hs)
    have hpre := (refReader_sessions pre [] [] [] hok (by simp [feed])).1 hgood
    rw [Reader.emit_nil] at hpre
    have hrd : (refReader [] pre).status = .reading := by rw [hpre]
    have herr := refReader_read_error pre e [] hok hrd
    have hev := refReader_read_error_events pre e [] [] [] hok (by simp [feed]) hgood
    have hcut := refReader_cut pre post e []
    subst hsc
    refine ⟨?_, ?_, _, commandReader_eq pre, hrd, ?_⟩
    · show (refReader [] (pre ++ .errno e :: post)).status = _
      rw [hcut]; exact herr.1
    · rw [commandReader_eq, hcut]
    · show (refReader [] (pre ++ .errno e :: post)).events = (refReader [] pre).events ++ _
      rw [hcut, hev]
      rfl

/-- C7, witness: a line and an unfinished one, then a read that fails. -/
theorem C7_returns_iff_witness :
    ∃ r, commandReader [.avail [104, 105, 10, 97], .errno .ioFailure, .avail [98, 10]] =
        some r ∧
      r.status = .returned (.read .ioFailure) ∧
      commandReader ([.avail [104, 105, 10, 97]] ++ [.errno .ioFailure]) = some r ∧
      ∃ r0, commandReader [.avail [104, 105, 10, 97]] = some r0 ∧ r0.status = .reading ∧
        r.events = r0.events ++
          (if unfinishedRun [.avail [104, 105, 10, 97]] = [] then []
           else [dropCR (unfinishedRun [.avail [104, 105, 10, 97]])]) :=
  (C7_returns_iff [.avail [104, 105, 10, 97], .errno .ioFailure, .avail [98, 10]]).elim
    (fun r h =>
      ⟨r, h.1,
        h.2.2.2.2 [.avail [104, 105, 10, 97]] .ioFailure [.avail [98, 10]] rfl
          (by decide) (by decide)⟩)

/-- Every session is the session of its lines and its fragment: bytes are the runs that
a newline ends, each followed by its newline, and then the run after the last newline. -/
theorem sessionOf_splitRuns (s run : List Byte) (hrun : 10 ∉ run) :
    run ++ s = sessionOf (splitRuns run s) ∧
      (∀ l ∈ (splitRuns run s).1, 10 ∉ l) ∧ 10 ∉ (splitRuns run s).2 := by
  induction s generalizing run with
  | nil => simp [splitRuns, sessionOf, sessionBytes, hrun]
  | cons b bs ih =>
    by_cases hb : b = 10
    · have h0 := ih [] (by simp)
      have h1 : bs = sessionBytes (splitRuns [] bs).1 ++ (splitRuns [] bs).2 := by
        simpa [sessionOf] using h0.1
      have h2 : sessionBytes (run :: (splitRuns [] bs).1) ++ (splitRuns [] bs).2 =
          run ++ 10 :: (sessionBytes (splitRuns [] bs).1 ++ (splitRuns [] bs).2) := by
        simp [sessionBytes]
      simp only [splitRuns, hb, if_true, List.mem_cons, forall_eq_or_imp, sessionOf]
      refine ⟨?_, ⟨hrun, h0.2.1⟩, h0.2.2⟩
      rw [h2, ← h1]
    · have hb2 : ¬ 10 = b := fun h => hb h.symm
      have h0 := ih (run ++ [b]) (by simp [hrun, hb2])
      simp only [splitRuns, hb, if_false]
      refine ⟨?_, h0.2.1, h0.2.2⟩
      rw [← h0.1]
      simp

/-- The lines a scanner gives on a session that writes lines, each followed by a newline,
and then some more bytes. -/
theorem feed_sessionBytes_any (lines : List Line) (tail : List Byte)
    (hlines : ∀ l ∈ lines, 10 ∉ l ∧ l.length < MaxScanTokenSize) :
    feed [] (sessionBytes lines ++ tail) =
      (lines.map dropCR ++ (feed [] tail).1, (feed [] tail).2) := by
  induction lines with
  | nil => simp [sessionBytes]
  | cons l ls ih =>
    obtain ⟨h1, h3⟩ := hlines l (List.mem_cons_self _ _)
    have hs : sessionBytes (l :: ls) ++ tail = l ++ 10 :: (sessionBytes ls ++ tail) := by
      simp [sessionBytes]
    rw [hs, feed_newline l _ [] h1 (by simpa using h3),
      ih (fun x hx => hlines x (List.mem_cons_of_mem _ hx))]
    simp

theorem feed_sessionOf (p : List Line × List Byte)
    (hp : (∀ l ∈ p.1, 10 ∉ l ∧ l.length < MaxScanTokenSize) ∧
      10 ∉ p.2 ∧ p.2.length < MaxScanTokenSize) :
    feed [] (sessionOf p) = (p.1.map dropCR, some p.2) := by
  unfold sessionOf
  rw [feed_sessionBytes_any p.1 p.2 hp.1,
    feed_no_newline p.2 [] hp.2.1 (by simpa using hp.2.2)]
  simp

theorem sessionEvents_closed (L : List (List Line × List Byte)) (M : List (List Byte))
    (hM : M ≠ [])
    (hL : ∀ p ∈ L, (∀ l ∈ p.1, 10 ∉ l ∧ l.length < MaxScanTokenSize) ∧
      10 ∉ p.2 ∧ p.2.length < MaxScanTokenSize) :
    sessionEvents (L.map sessionOf ++ M) = (L.map closedEvents).flatten ++ sessionEvents M := by
  induction L with
  | nil => simp
  | cons p ps ih =>
    have hne : ps.map sessionOf ++ M ≠ [] := by simp [hM]
    rw [List.map_cons, List.cons_append, sessionEvents_cons _ _ hne,
      ih (fun x hx => hL x (List.mem_cons_of_mem _ hx)),
      feed_sessionOf p (hL p (List.mem_cons_self _ _))]
    simp [closedEvents, flush]

theorem sessionEvents_stream (L : List (List Line × List Byte))
    (hL : ∀ p ∈ L, (∀ l ∈ p.1, 10 ∉ l ∧ l.length < MaxScanTokenSize) ∧
      10 ∉ p.2 ∧ p.2.length < MaxScanTokenSize) :
    sessionEvents (L.map sessionOf) = streamEvents L := by
  induction L with
  | nil => rfl
  | cons p ps ih =>
    have hp := feed_sessionOf p (hL p (List.mem_cons_self _ _))
    cases ps with
    | nil => simp [sessionEvents, streamEvents, hp]
    | cons q qs =>
      have ih' := ih (fun x hx => hL x (List.mem_cons_of_mem _ hx))
      rw [List.map_cons, sessionEvents_cons _ _ (by simp), ih', hp]
      simp [streamEvents, closedEvents, flush]

theorem sessionOf_good (L : List (List Line × List Byte))
    (hL : ∀ p ∈ L, (∀ l ∈ p.1, 10 ∉ l ∧ l.length < MaxScanTokenSize) ∧
      10 ∉ p.2 ∧ p.2.length < MaxScanTokenSize) :
    ∀ s ∈ L.map sessionOf, (feed [] s).2 ≠ none := by
  intro s hs
  obtain ⟨p, hp, rfl⟩ := List.mem_map.1 hs
  rw [feed_sessionOf p (hL p hp)]
  simp

/-- C10, counterexample: two inputs.  A session writes the letter `a` and a carriage
return, no newline, and ends; the next session writes the line `b`: the event sent for the
first session is the line `a`, not the fragment, which has two bytes.  And a session
writes 65536 letters `a`, no newline, and ends; the next session writes the line `b`: no
event is sent, the reader prints `ErrTooLong` and returns. -/
theorem C10_fragment_loses_carriage_return :
    (sessionsOf [.avail [97, 13], .avail [], .avail [98, 10]] =
        [[97, 13], sessionBytes [[98]]] ∧
      commandReader [.avail [97, 13], .avail [], .avail [98, 10]] =
        some { events := [[97], [98]], status := .reading, scans := 2 }) ∧
    commandReader [.avail (List.replicate 65536 97), .avail [], .avail [98, 10]] =
      some { events := [], status := .returned .ErrTooLong, scans := 1 } := by
  refine ⟨⟨by decide, by decide⟩, ?_⟩
  have h := refReader_long_line 65536 97 [] [.avail [], .avail [98, 10]] (by decide)
    (by decide)
  rw [List.append_nil] at h
  rw [commandReader_eq, h]
  rfl

/-- C10, amended: take any script with no failing read, its sessions written each as
lines followed by a newline and then a fragment with no newline after it (every session
is of this form), every line and fragment shorter than 65536 bytes.  A session that has
ended and whose fragment is not empty gives that fragment, less one trailing carriage
return if it has one, as an event of its own right after the lines of its session; the
events of the sessions after it follow, the first line of the next session as an event of
its own; and the event loop relays every event, the fragment too, with a newline
appended. -/
theorem C10_fragment_is_relayed (before after : List (List Line × List Byte))
    (lines : List Line) (frag : List Byte) (sc : Script)
    (hok : sc.noFailure = true)
    (hsess : sessionsOf sc =
      before.map sessionOf ++ sessionOf (lines, frag) :: after.map sessionOf)
    (hafter : after ≠ [])
    (hbefore : ∀ p ∈ before, (∀ l ∈ p.1, 10 ∉ l ∧ l.length < MaxScanTokenSize) ∧
      10 ∉ p.2 ∧ p.2.length < MaxScanTokenSize)
    (hlines : ∀ l ∈ lines, 10 ∉ l ∧ l.length < MaxScanTokenSize)
    (hlater : ∀ p ∈ after, (∀ l ∈ p.1, 10 ∉ l ∧ l.length < MaxScanTokenSize) ∧
      10 ∉ p.2 ∧ p.2.length < MaxScanTokenSize)
    (hfrag : frag ≠ [] ∧ 10 ∉ frag ∧ frag.length < MaxScanTokenSize) :
    ∃ r, commandReader sc = some r ∧
      r.events = (before.map closedEvents).flatten ++ lines.map dropCR ++ [dropCR frag] ++
        streamEvents after ∧
      (∀ l ls f rest, after = (l :: ls, f) :: rest →
        ∃ tail, r.events = (before.map closedEvents).flatten ++ lines.map dropCR ++
          [dropCR frag] ++ dropCR l :: tail) ∧
      stdinBytes (relay r.events).stdin = (r.events.map (fun l => l ++ [10])).flatten := by
  obtain ⟨hne, hnl, hlen⟩ := hfrag
  have hmid : (∀ l ∈ (lines, frag).1, 10 ∉ l ∧ l.length < MaxScanTokenSize) ∧
      10 ∉ (lines, frag).2 ∧ (lines, frag).2.length < MaxScanTokenSize := ⟨hlines, hnl, hlen⟩
  have hfeed := feed_sessionOf (lines, frag) hmid
  have hgood : ∀ s ∈ sessionsOf sc, (feed [] s).2 ≠ none := by
    rw [hsess]
    intro s hs
    rcases List.mem_append.1 hs with h | h
    · exact sessionOf_good before hbefore s h
    · rcases List.mem_cons.1 h with rfl | h
      · rw [hfeed]; simp
      · exact sessionOf_good after hlater s h
  have hane : after.map sessionOf ≠ [] := by simpa using hafter
  have hev : sessionEvents (sessionsOf sc) =
      (before.map closedEvents).flatten ++ lines.map dropCR ++ [dropCR frag] ++
        streamEvents after := by
    rw [hsess, sessionEvents_closed before _ (by simp) hbefore, sessionEvents_cons _ _ hane,
      hfeed, sessionEvents_stream after hlater]
    simp [flush, hne]
  refine ⟨_, commandReader_sessions sc hok hgood, hev, ?_, ?_⟩
  · intro l ls f rest hshape
    simp only [hev, hshape]
    cases rest with
    | nil => exact ⟨ls.map dropCR, by simp [streamEvents]⟩
    | cons q qs =>
      exact ⟨ls.map dropCR ++ (if f = [] then [] else [dropCR f]) ++ streamEvents (q :: qs),
        by simp [streamEvents, closedEvents]⟩
  · rw [relay_eq, stdinBytes_relayOps]

/-- C10, witness: the session `a`, the session `b` and the session that writes the line
`c`; the first two end in a fragment. -/
theorem C10_fragment_is_relayed_witness :
    ∃ r, commandReader [.avail [97], .avail [], .avail [98], .avail [], .avail [99, 10]] =
        some r ∧
      r.events = ([([], [97])].map closedEvents).flatten ++ ([] : List Line).map dropCR ++
        [dropCR [98]] ++ streamEvents [([[99]], [])] ∧
      (∀ l ls f rest, [(([[99]], []) : List Line × List Byte)] = (l :: ls, f) :: rest →
        ∃ tail, r.events = ([([], [97])].map closedEvents).flatten ++
          ([] : List Line).map dropCR ++ [dropCR [98]] ++ dropCR l :: tail) ∧
      stdinBytes (relay r.events).stdin = (r.events.map (fun l => l ++ [10])).flatten :=
  C10_fragment_is_relayed [([], [97])] [([[99]], [])] [] [98]
    [.avail [97], .avail [], .avail [98], .avail [], .avail [99, 10]]
    (by decide) (by decide) (by decide) (by decide) (by decide) (by decide) (by decide)

end MinecraftWrapper
